import Mathlib

/-!
Verification development for the `morph` request-materialization engine of the
librarian repository.

The Go sources are shallowly embedded: each Go function that the properties
below talk about is translated into an executable Lean definition of the same
name (Go pointers to `api.Message` become message IDs resolved in a finite
environment `Env`, so cyclic message graphs are representable; Go maps become
association lists with replace-on-insert; Go `float64` JSON numbers become
`Rat`; Go functions that can panic return `Option`, with `none` marking the
panic).  Core `String` functions of Lean do not reduce in the kernel, so the
few Go string operations used by the sources (`strings.Split`, `ToLower`,
`ReplaceAll`, `TrimSuffix`, `TrimPrefix`, joins and quoting) are implemented
here over `List Char` and wrapped back into `String`.
-/

/-! ## String helpers (ASCII models of the Go `strings` functions used) -/

/-- ASCII lower-casing of one character, as `strings.ToLower` acts on ASCII. -/
def lowerChar (c : Char) : Char :=
  if 65 ≤ c.toNat ∧ c.toNat ≤ 90 then Char.ofNat (c.toNat + 32) else c

/-- ASCII upper-casing of one character, as `strings.ToUpper` acts on ASCII. -/
def upperChar (c : Char) : Char :=
  if 97 ≤ c.toNat ∧ c.toNat ≤ 122 then Char.ofNat (c.toNat - 32) else c

/-- `strings.ToLower` (ASCII fragment). -/
def strLower (s : String) : String := String.mk (s.data.map lowerChar)

/-- `strings.ReplaceAll s (String.mk [c]) ""`: remove every occurrence of a
single character, the only form of `ReplaceAll` the sources use. -/
def strRemove (c : Char) (s : String) : String :=
  String.mk (s.data.filter (fun x => ¬ (x = c)))

/-- Character-list splitter underlying `strings.Split` for a one-character
separator: `splitOnC c l` never returns `[]` and joining the pieces with `c`
restores `l`. -/
def splitOnC (c : Char) (l : List Char) : List (List Char) :=
  match l with
  | [] => [[]]
  | x :: xs =>
    let r := splitOnC c xs
    if x = c then [] :: r
    else
      match r with
      | [] => [[x]]
      | h :: t => (x :: h) :: t

/-- `strings.Split s sep` for a one-character separator `sep`. -/
def strSplitOn (c : Char) (s : String) : List String :=
  (splitOnC c s.data).map String.mk

/-- `strings.HasSuffix s (String.mk [c])` for a one-character suffix. -/
def strEndsWithC (c : Char) (s : String) : Bool :=
  s.data.getLast? = some c

/-- Drop the final character of a string (empty strings are unchanged). -/
def strDropLast (s : String) : String := String.mk s.data.dropLast

/-- `strings.TrimSuffix s "s"`: remove one trailing `s` if present.  Note the
Go function removes the suffix at most once. -/
def trimSuffixS (s : String) : String :=
  if strEndsWithC 's' s then strDropLast s else s

/-- `strings.TrimPrefix s "*"`: remove one leading `*` if present. -/
def trimPrefixStar (s : String) : String :=
  match s.data with
  | '*' :: rest => String.mk rest
  | _ => s

/-- `strings.Join l sep`. -/
def strJoin (sep : String) : List String → String
  | [] => ""
  | [x] => x
  | x :: xs => x ++ sep ++ strJoin sep xs

/-- Whether a string contains a given character (`strings.Contains` with a
one-character needle). -/
def strContainsC (c : Char) (s : String) : Bool :=
  s.data.any (fun x => x = c)

/-- Capitalize the first character: Go's `strings.ToUpper(p[:1]) + p[1:]`
restricted to ASCII. -/
def capFirst (s : String) : String :=
  match s.data with
  | [] => s
  | c :: rest => String.mk (upperChar c :: rest)

/-- Escaping of one character inside a quoted literal.  Go's `%q` verb and
JSON string encoding agree on the printable-ASCII fragment modelled here
(backslash, double quote, newline, tab); other control characters do not occur
in any input considered by the claims. -/
def escChar (c : Char) : String :=
  if c = '"' then "\\\""
  else if c = '\\' then "\\\\"
  else if c = '\n' then "\\n"
  else if c = '\t' then "\\t"
  else String.mk [c]

/-- Quoted string literal: `fmt.Sprintf("%q", s)` for printable ASCII, also
used as the JSON string encoder of `json.Compact` output. -/
def goQuote (s : String) : String :=
  "\"" ++ (s.data.map escChar).foldl (· ++ ·) "" ++ "\""

/-! ## JSON values

`encoding/json` decodes a request body into `map[string]any` where numbers
are `float64`; `gjson` parses the same bytes keeping document order.  Both
are modelled by `JValue`: objects carry their entries as an ordered
association list.  For decoded Go maps this order models the (unspecified)
`range` iteration order; for `gjson` it is the document order of the input
text.  Numbers are modelled as rationals (`float64` values are rationals);
the request text is assumed to be compact, so a `gjson` `Raw` fragment equals
its re-serialization `compactJson`. -/

inductive JValue where
  | null
  | bool (b : Bool)
  | num (q : Rat)
  | str (s : String)
  | arr (items : List JValue)
  | obj (entries : List (String × JValue))

/-- First-match lookup in an object's entry list, the behaviour of both a Go
map index and a `gjson` key access. -/
def jlookup (entries : List (String × JValue)) (k : String) : Option JValue :=
  match entries with
  | [] => none
  | (k', v) :: rest => if k' = k then some v else jlookup rest k

def JValue.isArr : JValue → Bool
  | .arr _ => true
  | _ => false

def JValue.isObj : JValue → Bool
  | .obj _ => true
  | _ => false

/-- Truncation of a rational toward zero, the effect of Go's `int64(v)` /
`uint64(v)` conversions on an in-range `float64` (out-of-range conversions
are implementation-defined in Go and are guarded by range hypotheses in the
theorems below). -/
def truncRat (q : Rat) : Int := Int.tdiv q.num (Int.ofNat q.den)

/-- Digits of the fractional part of `num/den` by long division (`fuel`
bounds the number of digits). -/
def fracDigits (fuel : Nat) (num den : Nat) : List Char :=
  match fuel with
  | 0 => []
  | fuel + 1 =>
    if num = 0 then []
    else
      let d := num * 10 / den
      let r := num * 10 % den
      Char.ofNat (48 + d) :: fracDigits fuel r den

/-- Decimal rendering of a JSON number.  `gjson` prints a `float64` with
`strconv.FormatFloat(f, 'f', -1, 64)`; for every value relevant to a claim
the number is integral and this is the plain integer digits.  Non-integral
finite binary fractions are rendered by exact decimal expansion, which
coincides with Go whenever the shortest round-trip representation is the
exact expansion. -/
def numToString (q : Rat) : String :=
  if q.den = 1 then toString q.num
  else
    let sign := if q.num < 0 then "-" else ""
    let n := q.num.natAbs
    sign ++ toString (n / q.den) ++ "." ++ String.mk (fracDigits 64 (n % q.den) q.den)

mutual

/-- Compact serialization of a JSON value: the result of `json.Compact` on
the (assumed compact) `gjson` `Raw` fragment for this value.  Key order is
the document order carried by the entry list. -/
def compactJson : JValue → String
  | .null => "null"
  | .bool b => if b then "true" else "false"
  | .num q => numToString q
  | .str s => goQuote s
  | .arr items => "[" ++ compactItems items ++ "]"
  | .obj entries => "\x7b" ++ compactEntries entries ++ "\x7d"

def compactItems : List JValue → String
  | [] => ""
  | [v] => compactJson v
  | v :: rest => compactJson v ++ "," ++ compactItems rest

def compactEntries : List (String × JValue) → String
  | [] => ""
  | [(k, v)] => goQuote k ++ ":" ++ compactJson v
  | (k, v) :: rest => goQuote k ++ ":" ++ compactJson v ++ "," ++ compactEntries rest

end

/-- `gjson.Result.String()`: empty for null, `true`/`false` for booleans,
decimal text for numbers, the unquoted text for strings, and the raw (here:
compact) JSON fragment for arrays and objects. -/
def resultString : JValue → String
  | .null => ""
  | .bool b => if b then "true" else "false"
  | .num q => numToString q
  | .str s => s
  | .arr items => compactJson (.arr items)
  | .obj entries => compactJson (.obj entries)

/-- `gjson.Get` for a plain dot-separated key path, the only path form the
sources use (`gjson`'s richer query syntax is never exercised).  Returns
`none` exactly when the Go result has `Exists() == false`; note a JSON
`null` value does exist (`some .null`). -/
def gjsonGetParts : JValue → List String → Option JValue
  | v, [] => some v
  | .obj entries, k :: rest =>
    match jlookup entries k with
    | some v => gjsonGetParts v rest
    | none => none
  | _, _ :: _ => none

def gjsonGet (v : JValue) (path : String) : Option JValue :=
  gjsonGetParts v (strSplitOn '.' path)

/-- `result.String()` where a non-existent result stringifies to `""`. -/
def optResultString : Option JValue → String
  | none => ""
  | some v => resultString v

/-! ## Association-list operations (Go map semantics)

A Go map assignment `m[k] = v` replaces an existing entry or appends a new
one; lookups return the stored value.  Association lists with
replace-or-append insertion model this exactly, keeping insertion order. -/

def alookup {α : Type} (l : List (String × α)) (k : String) : Option α :=
  match l with
  | [] => none
  | (k', v) :: rest => if k' = k then some v else alookup rest k

def aupsert {α : Type} (l : List (String × α)) (k : String) (v : α) : List (String × α) :=
  match l with
  | [] => [(k, v)]
  | (k', v') :: rest => if k' = k then (k', v) :: rest else (k', v') :: aupsert rest k v

/-! ## The sidekick `api` data model

`api.Message` values form a possibly-cyclic pointer graph in Go.  The
embedding replaces every `*api.Message` pointer by the message ID and
resolves it in a finite environment `Env`, so cycles (self-references,
ancestor references) are representable.  `api.OneOf` pointers are replaced
by the group name, and the nested-message list (only its names are ever
read by the sources) by the list of those names. -/

namespace api

inductive Typez where
  | DOUBLE_TYPE | FLOAT_TYPE | INT64_TYPE | UINT64_TYPE | INT32_TYPE
  | FIXED64_TYPE | FIXED32_TYPE | UINT32_TYPE | SFIXED32_TYPE | SFIXED64_TYPE
  | SINT32_TYPE | SINT64_TYPE | BOOL_TYPE | STRING_TYPE | BYTES_TYPE
  | MESSAGE_TYPE | ENUM_TYPE | GROUP_TYPE
deriving DecidableEq, Repr

inductive FieldBehavior where
  | FIELD_BEHAVIOR_REQUIRED | FIELD_BEHAVIOR_OUTPUT_ONLY | FIELD_BEHAVIOR_OPTIONAL
deriving DecidableEq, Repr

structure EnumValue where
  name : String := ""
deriving DecidableEq, Repr

structure Enum where
  values : List EnumValue := []
deriving DecidableEq, Repr

structure Field where
  name : String := ""
  jsonName : String := ""
  typez : Typez := Typez.STRING_TYPE
  repeated : Bool := false
  isMap : Bool := false
  behavior : List FieldBehavior := []
  messageType : Option String := none
  enumType : Option Enum := none
  isOneOf : Bool := false
  group : Option String := none
  documentation : String := ""
deriving DecidableEq, Repr

structure Message where
  id : String := ""
  name : String := ""
  fields : List Field := []
  nestedNames : List String := []
  parent : Option String := none
  servicePlaceholder : Bool := false
  documentation : String := ""
deriving DecidableEq, Repr

abbrev Env := List Message

def envFind (env : Env) (id : String) : Option Message :=
  match env with
  | [] => none
  | m :: rest => if m.id = id then some m else envFind rest id

/-- `slices.Contains(f.Behavior, api.FIELD_BEHAVIOR_OUTPUT_ONLY)`. -/
def Field.isOutputOnly (f : Field) : Bool :=
  f.behavior.contains FieldBehavior.FIELD_BEHAVIOR_OUTPUT_ONLY

/-- Modelled from the spec: `api.Field.DocumentAsRequired` is declared in the
sidekick package, which is outside this repository snapshot.  Spec §4.3 says
required-field lists are populated from fields explicitly marked required,
and the exporter test marks such fields with `FIELD_BEHAVIOR_REQUIRED`. -/
def Field.documentAsRequired (f : Field) : Bool :=
  f.behavior.contains FieldBehavior.FIELD_BEHAVIOR_REQUIRED

end api

/-! ## `convert.ToJSONSchema`: the JSON-Schema exporter

`jsonschema.Schema` is embedded with exactly the fields the exporter writes
(type, ref, description, contentEncoding, enum, required, properties,
definitions, items, additionalProperties); properties and definitions keep
insertion order as association lists. -/

namespace convert

open api

inductive JSchema where
  | mk (type ref description contentEncoding : String)
       (enum : List String)
       (required : List String)
       (properties definitions : List (String × JSchema))
       (items additionalProperties : Option JSchema)

def JSchema.empty : JSchema := .mk "" "" "" "" [] [] [] [] none none

/-- `&jsonschema.Schema{Ref: r}`. -/
def refSchema (r : String) : JSchema := .mk "" r "" "" [] [] [] [] none none

/-- `&jsonschema.Schema{Type: t}`. -/
def typeSchema (t : String) : JSchema := .mk t "" "" "" [] [] [] [] none none

def JSchema.ref : JSchema → String
  | .mk _ r _ _ _ _ _ _ _ _ => r

def JSchema.properties : JSchema → List (String × JSchema)
  | .mk _ _ _ _ _ _ pr _ _ _ => pr

def JSchema.definitions : JSchema → List (String × JSchema)
  | .mk _ _ _ _ _ _ _ df _ _ => df

def JSchema.required : JSchema → List String
  | .mk _ _ _ _ _ rq _ _ _ _ => rq

def JSchema.withDescription : JSchema → String → JSchema
  | .mk t r _ ce en rq pr df it ap, d => .mk t r d ce en rq pr df it ap

def JSchema.withDefinitions : JSchema → List (String × JSchema) → JSchema
  | .mk t r d ce en rq pr _ it ap, df => .mk t r d ce en rq pr df it ap

/-- `schemaWalker`: the visited map `refMap` (message ID to reference string)
and the definitions table `defs`, both in insertion order. -/
structure WalkerState where
  defs : List (String × JSchema) := []
  refMap : List (String × String) := []

mutual

/-- `schemaWalker.getRef`.  A `nil` message (`none`, or an ID that does not
resolve in `env`, which cannot arise from a Go pointer) yields the empty
schema.  A visited ID returns its stored reference without recursing.  A
fresh ID is inserted into `refMap` *before* its object schema is built, then
the schema is stored in `defs` keyed by the ID.  `fuel` bounds recursion
through fresh IDs; `none` reports exhaustion, shown impossible below for
`fuel = env.length`. -/
def getRef (env : Env) (fuel : Nat) (st : WalkerState) (mid : Option String) :
    Option (WalkerState × JSchema) :=
  match mid with
  | none => some (st, JSchema.empty)
  | some id =>
    match envFind env id with
    | none => some (st, JSchema.empty)
    | some msg =>
      match alookup st.refMap msg.id with
      | some r => some (st, refSchema r)
      | none =>
        let r := "#/definitions/" ++ msg.id
        let st1 : WalkerState := ⟨st.defs, st.refMap ++ [(msg.id, r)]⟩
        match fuel with
        | 0 => none
        | fuel + 1 =>
          match buildObject env fuel st1 msg with
          | none => none
          | some (st2, s) => some (⟨aupsert st2.defs msg.id s, st2.refMap⟩, refSchema r)
termination_by (fuel, 0, 0)

/-- `schemaWalker.buildFieldType`. -/
def buildFieldType (env : Env) (fuel : Nat) (st : WalkerState) (f : Field) :
    Option (WalkerState × JSchema) :=
  match f.typez with
  | .DOUBLE_TYPE | .FLOAT_TYPE => some (st, typeSchema "number")
  | .INT64_TYPE | .UINT64_TYPE | .INT32_TYPE | .FIXED64_TYPE | .FIXED32_TYPE
  | .UINT32_TYPE | .SFIXED32_TYPE | .SFIXED64_TYPE | .SINT32_TYPE | .SINT64_TYPE =>
      some (st, typeSchema "integer")
  | .BOOL_TYPE => some (st, typeSchema "boolean")
  | .STRING_TYPE => some (st, typeSchema "string")
  | .BYTES_TYPE => some (st, .mk "string" "" "" "base64" [] [] [] [] none none)
  | .MESSAGE_TYPE | .GROUP_TYPE => getRef env fuel st f.messageType
  | .ENUM_TYPE =>
    match f.enumType with
    | none => some (st, typeSchema "string")
    | some e => some (st, .mk "" "" "" "" (e.values.map EnumValue.name) [] [] [] none none)
termination_by (fuel, 1, 0)

/-- `schemaWalker.buildField`: map fields wrap the entry message's "value"
field type in an `additionalProperties` object, repeated fields wrap the
element type in an array, and a non-empty field documentation is written to
the description. -/
def buildField (env : Env) (fuel : Nat) (st : WalkerState) (f : Field) :
    Option (WalkerState × JSchema) :=
  if f.isMap then
    let mt : Option Message :=
      match f.messageType with
      | none => none
      | some id => envFind env id
    match mt with
    | some m =>
      match m.fields.find? (fun sf => sf.name == "value") with
      | some subF =>
        match buildFieldType env fuel st subF with
        | none => none
        | some (st', vs) =>
          let vs := if subF.documentation ≠ "" then vs.withDescription subF.documentation else vs
          some (st', .mk "object" "" f.documentation "" [] [] [] [] none (some vs))
      | none => some (st, .mk "object" "" f.documentation "" [] [] [] [] none (some JSchema.empty))
    | none => some (st, .mk "object" "" f.documentation "" [] [] [] [] none (some JSchema.empty))
  else
    match buildFieldType env fuel st f with
    | none => none
    | some (st', s) =>
      let s := if f.documentation ≠ "" then s.withDescription f.documentation else s
      if f.repeated then
        some (st', .mk "array" "" f.documentation "" [] [] [] [] (some s) none)
      else
        some (st', s)
termination_by (fuel, 2, 0)

/-- The field loop of `schemaWalker.buildObject`: output-only fields are
skipped, each remaining field's schema is stored in `properties` under the
JSON name, and required fields append their JSON name to `required`. -/
def buildObjectFields (env : Env) (fuel : Nat) (st : WalkerState) (fields : List Field)
    (props : List (String × JSchema)) (req : List String) :
    Option (WalkerState × List (String × JSchema) × List String) :=
  match fields with
  | [] => some (st, props, req)
  | f :: rest =>
    if f.isOutputOnly then buildObjectFields env fuel st rest props req
    else
      match buildField env fuel st f with
      | none => none
      | some (st', schema) =>
        let props' := aupsert props f.jsonName schema
        let req' := if f.documentAsRequired then req ++ [f.jsonName] else req
        buildObjectFields env fuel st' rest props' req'
termination_by (fuel, 3, fields.length)

/-- `schemaWalker.buildObject`. -/
def buildObject (env : Env) (fuel : Nat) (st : WalkerState) (msg : Message) :
    Option (WalkerState × JSchema) :=
  match buildObjectFields env fuel st msg.fields [] [] with
  | none => none
  | some (st', props, req) =>
    some (st', .mk "object" "" msg.documentation "" [] req props [] none none)
termination_by (fuel, 4, 0)

end

/-- `convert.ToJSONSchema`: a `nil` message yields the empty schema;
otherwise the root is registered in the visited map as `#` before its object
schema is built, and the accumulated definitions table is attached to the
root. -/
def ToJSONSchema (env : Env) (msg : Option Message) : Option JSchema :=
  match msg with
  | none => some JSchema.empty
  | some m =>
    let st : WalkerState := ⟨[], [(m.id, "#")]⟩
    match buildObject env env.length st m with
    | none => none
    | some p => some (p.2.withDefinitions p.1.defs)

end convert

/-! ## `morph`: path templates, the path matcher, and the gcloud emitter -/

namespace morph

open api

structure PathVariable where
  fieldPath : List String := []
  segments : List String := []
deriving DecidableEq, Repr

/-- `api.PathSegment`: Go's `Variable` field is named `varSegment` here
(`variable` is a Lean keyword). -/
structure PathSegment where
  literal : Option String := none
  varSegment : Option PathVariable := none
deriving DecidableEq, Repr

structure PathTemplate where
  segments : List PathSegment := []
deriving DecidableEq, Repr

structure PathBinding where
  verb : String := ""
  pathTemplate : PathTemplate := {}
deriving DecidableEq, Repr

structure PathInfo where
  bindings : List PathBinding := []
deriving DecidableEq, Repr

structure Method where
  name : String := ""
  pathInfo : Option PathInfo := none
deriving DecidableEq, Repr

/-- The scanning loop of `matchPath`: simultaneous left-to-right walk of the
value parts and the pattern tokens.  A wildcard consumes one part, capturing
it under the singularized last literal (no capture while no literal has been
seen); a literal must equal its part or the whole match fails (`none`).  The
loop stops when either list is exhausted; leftover pattern tokens mean
failure, leftover value parts are ignored. -/
def matchLoop (parts segs : List String) (lastLiteral : String)
    (captured : List (String × String)) : Option (List (String × String)) :=
  match parts, segs with
  | part :: ps, seg :: ss =>
    if seg = "*" ∨ seg = "**" then
      let captured' :=
        if lastLiteral ≠ "" then aupsert captured (trimSuffixS lastLiteral) part else captured
      matchLoop ps ss lastLiteral captured'
    else if part = seg then matchLoop ps ss seg captured
    else none
  | _, [] => some captured
  | [], _ :: _ => none

/-- `matchPath`: match a slash-separated value against pattern tokens,
returning the captured variables (`none` models Go's `nil` failure result). -/
def matchPath (value : String) (segments : List String) : Option (List (String × String)) :=
  matchLoop (strSplitOn '/' value) segments "" []

/-- `usedFields[fp] = true` for a Go `map[string]bool` used as a set. -/
def usedAdd (used : List String) (fp : String) : List String :=
  if used.contains fp then used else used ++ [fp]

/-- The per-binding segment loop of `decomposePathParams`: literal segments
and variables with an empty field path are skipped; a variable's (first)
field path is marked used, its string value is read from the request and
matched against the variable's pattern; a missing field or a failed match
fails the whole binding (`none`). -/
def evalBindingSegs (data : JValue) (segs : List PathSegment)
    (dec : List (String × String)) (used : List String) :
    Option (List (String × String) × List String) :=
  match segs with
  | [] => some (dec, used)
  | seg :: rest =>
    match seg.varSegment with
    | none => evalBindingSegs data rest dec used
    | some v =>
      match v.fieldPath with
      | [] => evalBindingSegs data rest dec used
      | fp :: _ =>
        let used' := usedAdd used fp
        match gjsonGet data fp with
        | none => none
        | some res =>
          match matchPath (resultString res) v.segments with
          | none => none
          | some values =>
            evalBindingSegs data rest
              (values.foldl (fun a kv => aupsert a kv.1 kv.2) dec) used'

def evalBinding (data : JValue) (b : PathBinding) :
    Option (List (String × String) × List String) :=
  evalBindingSegs data b.pathTemplate.segments [] []

/-- One step of the best-binding selection in `decomposePathParams`: a
failing binding is skipped, a successful one replaces the best so far only
when it captured strictly more variables (so earlier bindings win ties). -/
def decomposeStep (data : JValue) (best : List (String × String) × List String)
    (b : PathBinding) : List (String × String) × List String :=
  match evalBinding data b with
  | none => best
  | some (dec, used) => if best.1.length < dec.length then (dec, used) else best

/-- `decomposePathParams`: evaluate every binding, skip the failing ones, and
keep the binding whose decomposition captured strictly more variables than
the best so far.  With no method, no path info, no bindings, or no
successful binding capturing at least one variable, the result is empty. -/
def decomposePathParams (method? : Option Method) (data : JValue) :
    List (String × String) × List String :=
  match method? with
  | none => ([], [])
  | some m =>
    match m.pathInfo with
    | none => ([], [])
    | some pinfo => pinfo.bindings.foldl (decomposeStep data) ([], [])

/-! ### gcloud generation -/

/-- `gcloudcmd.FlagMapping` (Go `Pos *int` becomes `Option Int`). -/
structure FlagMapping where
  flag : String := ""
  pos : Option Int := none
  fieldPath : String := ""
  choices : List String := []
deriving DecidableEq, Repr

structure GcloudMappingFile where
  command : String := ""
  messageId : String := ""
  properties : List FlagMapping := []
deriving DecidableEq, Repr

structure GcloudFlag where
  name : String := ""
  value : String := ""
  isLast : Bool := false
deriving DecidableEq, Repr

structure GcloudData where
  command : String := ""
  positionalArgs : List String := []
  flags : List GcloudFlag := []
deriving DecidableEq, Repr

/-- `normalizeChoice`: lower-case, then drop every hyphen and underscore. -/
def normalizeChoice (s : String) : String :=
  strRemove '_' (strRemove '-' (strLower s))

/-- The object branch of choice resolution in `GenerateGcloud`: walk the
object's keys in document order and return the first declared choice whose
normalized form equals the normalized key. -/
def resolveChoiceObj (entries : List (String × JValue)) (choices : List String) :
    Option String :=
  match entries with
  | [] => none
  | (k, _) :: rest =>
    match choices.find? (fun c => normalizeChoice k == normalizeChoice c) with
    | some c => some c
    | none => resolveChoiceObj rest choices

/-- The scalar branch of choice resolution: the first declared choice whose
normalized form equals the normalized value string. -/
def resolveChoiceScalar (valStr : String) (choices : List String) : Option String :=
  choices.find? (fun c => normalizeChoice valStr == normalizeChoice c)

/-- Array flattening in `GenerateGcloud`: an object element with exactly one
field contributes that field's string value, any other element contributes
its own string form (raw JSON for objects and arrays). -/
def flattenItem : JValue → String
  | .obj [(_, v)] => resultString v
  | .obj entries => resultString (.obj entries)
  | v => resultString v

/-- The value computed for one mapping entry by `GenerateGcloud`: locate the
field, flatten arrays to a comma-joined list, resolve declared choices
against an object's keys or a scalar's text, and otherwise compact the raw
JSON fragment of an object or array (the request text being compact, the
compaction step returns the fragment itself). -/
def mappingValue (data : JValue) (prop : FlagMapping) : String :=
  let res := gjsonGet data prop.fieldPath
  let value0 := optResultString res
  let value1 :=
    match res with
    | some (.arr items) =>
      let flat := items.map flattenItem
      if 0 < flat.length then strJoin "," flat else value0
    | _ => value0
  let value2 :=
    if 0 < prop.choices.length then
      match res with
      | some (.obj entries) =>
        match resolveChoiceObj entries prop.choices with
        | some c => c
        | none => value1
      | _ =>
        match resolveChoiceScalar (optResultString res) prop.choices with
        | some c => c
        | none => value1
    else value1
  match res with
  | some v =>
    if (v.isObj ∨ v.isArr) ∧ value2 = resultString v then compactJson v else value2
  | none => value2

def ilookup (l : List (Int × String)) (k : Int) : Option String :=
  match l with
  | [] => none
  | (k', v) :: rest => if k' = k then some v else ilookup rest k

def iupsert (l : List (Int × String)) (k : Int) (v : String) : List (Int × String) :=
  match l with
  | [] => [(k, v)]
  | (k', v') :: rest => if k' = k then (k', v) :: rest else (k', v') :: iupsert rest k v

/-- One iteration of the mapping loop in `GenerateGcloud`: a field consumed
by path decomposition is skipped; a positional mapping stores its value (even
an empty one) under its index; a named-flag mapping appends a flag unless the
value is the empty string or the literal text "null". -/
def gcloudStep (data : JValue) (used : List String)
    (acc : List (Int × String) × List GcloudFlag) (prop : FlagMapping) :
    List (Int × String) × List GcloudFlag :=
  if used.contains prop.fieldPath then acc
  else
    let value := mappingValue data prop
    match prop.pos with
    | some p => (iupsert acc.1 p value, acc.2)
    | none =>
      if prop.flag ≠ "" then
        if value = "" ∨ value = "null" then acc
        else (acc.1, acc.2 ++ [{ name := prop.flag, value := value }])
      else acc

def gcloudFold (data : JValue) (used : List String) (props : List FlagMapping) :
    List (Int × String) × List GcloudFlag :=
  props.foldl (gcloudStep data used) ([], [])

/-- Injection of decomposed path variables: each captured variable with a
non-empty value becomes a flag `--key value` unless a flag of that name
already exists. -/
def injectDecomposed (flags : List GcloudFlag) (decomposed : List (String × String)) :
    List GcloudFlag :=
  decomposed.foldl
    (fun fl kv =>
      if kv.2 = "" then fl
      else if fl.any (fun f => f.name == "--" ++ kv.1) then fl
      else fl ++ [{ name := "--" ++ kv.1, value := kv.2 }])
    flags

/-- Byte-wise lexicographic string order, Go's `<` on strings (ASCII). -/
def charsLe : List Char → List Char → Bool
  | [], _ => true
  | _ :: _, [] => false
  | x :: xs, y :: ys =>
    if x.toNat < y.toNat then true
    else if y.toNat < x.toNat then false
    else charsLe xs ys

def strLe (a b : String) : Bool := charsLe a.data b.data

def insertFlag (f : GcloudFlag) : List GcloudFlag → List GcloudFlag
  | [] => [f]
  | g :: gs => if strLe f.name g.name then f :: g :: gs else g :: insertFlag f gs

/-- `sort.Slice(flags, by Name)` as a stable insertion sort.  Go's
`sort.Slice` is not stable, but every flag list a claim touches has pairwise
distinct names, for which every sort agrees. -/
def sortFlags (l : List GcloudFlag) : List GcloudFlag := l.foldr insertFlag []

def insertSortedInt (x : Int) : List Int → List Int
  | [] => [x]
  | y :: ys => if x ≤ y then x :: y :: ys else y :: insertSortedInt x ys

/-- `sort.Ints` (insertion sort; positional indices are distinct map keys). -/
def sortInts (l : List Int) : List Int := l.foldr insertSortedInt []

/-- Positional-argument reconstruction: indices sorted ascending, then their
stored values. -/
def positionalFrom (pm : List (Int × String)) : List String :=
  (sortInts (pm.map Prod.fst)).map (fun p => (ilookup pm p).getD "")

/-- `flags[len(flags)-1].IsLast = true`. -/
def markLast : List GcloudFlag → List GcloudFlag
  | [] => []
  | [f] => [{ f with isLast := true }]
  | f :: rest => f :: markLast rest

/-- The pure core of `GenerateGcloud`: everything between the parsed inputs
(mapping file, method, request JSON) and the data handed to the output
template.  File reading, JSON unmarshalling and template rendering, the only
error sources of the Go function, are outside this core. -/
def generateGcloudData (mapping : GcloudMappingFile) (method? : Option Method)
    (reqData : JValue) : GcloudData :=
  let dr := decomposePathParams method? reqData
  let pmfl := gcloudFold reqData dr.2 mapping.properties
  let flags := injectDecomposed pmfl.2 dr.1
  { command := mapping.command
    positionalArgs := positionalFrom pmfl.1
    flags := markLast (sortFlags flags) }

end morph

/-! ### The Go-literal emitter (`golang.go`) -/

namespace golang

open api morph

/-- The recursive value tree of the Go emitter (`FieldNode` with
`MapEntry` pairs inlined as `String × FieldNode`).  `Value` holds the
already-formatted literal text, which is what the Go code always stores. -/
inductive FieldNode where
  | mk (name typeName value : String)
       (isMessage isRepeated isMap isPrimitive : Bool)
       (children items : List FieldNode)
       (entries : List (String × FieldNode))

def FieldNode.name : FieldNode → String
  | .mk n _ _ _ _ _ _ _ _ _ => n

def FieldNode.typeName : FieldNode → String
  | .mk _ tn _ _ _ _ _ _ _ _ => tn

def FieldNode.value : FieldNode → String
  | .mk _ _ v _ _ _ _ _ _ _ => v

def FieldNode.isMessage : FieldNode → Bool
  | .mk _ _ _ im _ _ _ _ _ _ => im

def FieldNode.isPrimitive : FieldNode → Bool
  | .mk _ _ _ _ _ _ ip _ _ _ => ip

def FieldNode.children : FieldNode → List FieldNode
  | .mk _ _ _ _ _ _ _ ch _ _ => ch

def FieldNode.items : FieldNode → List FieldNode
  | .mk _ _ _ _ _ _ _ _ it _ => it

def FieldNode.entries : FieldNode → List (String × FieldNode)
  | .mk _ _ _ _ _ _ _ _ _ en => en

def FieldNode.setTypeName : FieldNode → String → FieldNode
  | .mk n _ v im ir imp ip ch it en, tn => .mk n tn v im ir imp ip ch it en

mutual

/-- `FieldNode.Render`: messages as `&Type{ name: value, ... }`, repeated
nodes as `Type{ item, ... }`, maps as `Type{ "key": value, ... }`, primitive
nodes as their stored literal text. -/
def FieldNode.render : FieldNode → String
  | .mk _ tn v im ir imp ip ch it en =>
    if im then "&" ++ tn ++ "\x7b\n" ++ renderChildren ch ++ "\x7d"
    else if ir then tn ++ "\x7b\n" ++ renderItems it ++ "\x7d"
    else if imp then tn ++ "\x7b\n" ++ renderEntries en ++ "\x7d"
    else if ip then v
    else ""

def renderChildren : List FieldNode → String
  | [] => ""
  | c :: rest => c.name ++ ": " ++ c.render ++ ",\n" ++ renderChildren rest

def renderItems : List FieldNode → String
  | [] => ""
  | c :: rest => c.render ++ ",\n" ++ renderItems rest

def renderEntries : List (String × FieldNode) → String
  | [] => ""
  | (k, v) :: rest => goQuote k ++ ": " ++ v.render ++ ",\n" ++ renderEntries rest

end

/-- `toPascalCase`: split on underscores, capitalize each part, join. -/
def toPascalCase (s : String) : String :=
  strJoin "" ((strSplitOn '_' s).map capFirst)

/-- The parent-chain walk of `getGoTypeName`, prefixing parent names until a
top-level service placeholder.  Go parent pointers form finite chains; `fuel`
(instantiated with `env.length + 1`) guards against parent cycles that a Go
pointer chain cannot have bottom-up.  A parent ID unresolved in `env` models
a dangling pointer, which cannot arise from Go either. -/
def getGoTypeNameAux (env : Env) : Nat → Option String → String → String
  | 0, _, acc => acc
  | _ + 1, none, acc => acc
  | fuel + 1, some pid, acc =>
    match envFind env pid with
    | none => acc
    | some p =>
      if p.parent = none ∧ p.servicePlaceholder then acc
      else getGoTypeNameAux env fuel p.parent (p.name ++ "_" ++ acc)

def getGoTypeName (env : Env) (msg : Message) (protoPkgName : String) : String :=
  protoPkgName ++ "." ++ getGoTypeNameAux env (env.length + 1) msg.parent msg.name

/-- Go's `%v` formatting on the dynamic values that can reach the fallback
branches of `formatPrimitive`: `nil`, booleans and strings are exact; the
number case (Go would print `%g`) and the array/object cases (Go would print
`[..]`/`map[..]`) are approximated by the JSON text, and no claim depends on
them (JSON numbers always take the `float64` branch, not this one). -/
def govString : JValue → String
  | .null => "<nil>"
  | .bool b => if b then "true" else "false"
  | .str s => s
  | .num q => numToString q
  | .arr items => compactJson (.arr items)
  | .obj entries => compactJson (.obj entries)

/-- `formatPrimitive`: strings are `%q`-quoted; for `int32`/`int64` a
`float64` value is converted with `int64(v)` (truncation toward zero,
implementation-defined outside the int64 range), for `uint32`/`uint64` with
`uint64(v)` (implementation-defined for negative values and above `2^64`);
everything else falls back to `%v`.  Note the 32-bit type names get the same
64-bit conversions as the 64-bit ones. -/
def formatPrimitive (val : JValue) (typeName : String) : String :=
  if typeName = "string" then
    match val with
    | .str s => goQuote s
    | v => govString v
  else if typeName = "int32" ∨ typeName = "int64" then
    match val with
    | .num q => toString (truncRat q)
    | v => govString v
  else if typeName = "uint32" ∨ typeName = "uint64" then
    match val with
    | .num q => toString (truncRat q)
    | v => govString v
  else
    govString val

/-- The proto package name computed at the top of `buildRequestInit` from the
proto import path: last slash component, and its part after `;` if any. -/
def protoPkgNameOf (protoPkg : String) : String :=
  let parts := strSplitOn '/' protoPkg
  let last := parts.getLastD ""
  if strContainsC ';' last then
    match strSplitOn ';' last with
    | _ :: second :: _ => second
    | _ => last
  else last

/-- Element type name of a repeated field (the `elemType` switch). -/
def repeatedElemType (env : Env) (pk : String) (f : Field) : String :=
  match f.typez with
  | .STRING_TYPE => "string"
  | .INT32_TYPE | .SINT32_TYPE | .SFIXED32_TYPE => "int32"
  | .INT64_TYPE | .SINT64_TYPE | .SFIXED64_TYPE => "int64"
  | .UINT32_TYPE | .FIXED32_TYPE => "uint32"
  | .UINT64_TYPE | .FIXED64_TYPE => "uint64"
  | .BOOL_TYPE => "bool"
  | .MESSAGE_TYPE =>
    match f.messageType with
    | none => ""
    | some id =>
      match envFind env id with
      | none => ""
      | some m => "*" ++ getGoTypeName env m pk
  | _ => ""

/-- Declared type string of a singular scalar field (the `typeStr` switch;
everything not an explicit integer or bool type defaults to `"string"`). -/
def singularTypeStr (f : Field) : String :=
  match f.typez with
  | .INT32_TYPE | .SINT32_TYPE | .SFIXED32_TYPE => "int32"
  | .INT64_TYPE | .SINT64_TYPE | .SFIXED64_TYPE => "int64"
  | .UINT32_TYPE | .FIXED32_TYPE => "uint32"
  | .UINT64_TYPE | .FIXED64_TYPE => "uint64"
  | .BOOL_TYPE => "bool"
  | _ => "string"

/-- Field lookup: first by declared name, then (when non-empty) by JSON
name. -/
def fieldValue (data : List (String × JValue)) (f : Field) : Option JValue :=
  match jlookup data f.name with
  | some v => some v
  | none => if f.jsonName ≠ "" then jlookup data f.jsonName else none

/-- Result of a build step: `panicked` models a Go runtime panic (the nil
dereference reachable through a repeated message field without a message
type); `fuelOut` reports recursion fuel exhaustion, an artifact of the
embedding (the Go recursion has no such bound, so claims about the builder
are stated on `ok` runs at a stated fuel). -/
inductive Res (α : Type) where
  | ok (a : α)
  | panicked
  | fuelOut
deriving DecidableEq, Repr

/-- The oneof wrapping applied before a child is appended: a field belonging
to a oneof group is wrapped in a synthetic message named after the group,
typed `pkg.Msg_Field` with a `_` suffix when a nested message of that name
exists. -/
def wrapOneOf (pk : String) (msg : Message) (f : Field) (node : FieldNode) : FieldNode :=
  match f.group with
  | some g =>
    if f.isOneOf then
      let typeName := toPascalCase f.name
      let typeName := if msg.nestedNames.contains typeName then typeName ++ "_" else typeName
      let wrapperTypeName := pk ++ "." ++ msg.name ++ "_" ++ typeName
      .mk (toPascalCase g) wrapperTypeName "" true false false false [node] [] []
    else node
  | none => node

mutual

/-- `buildRequestInit` (imports output dropped: the Go function only ever
propagates an import list that is never extended, so it is always empty).
`fuel` decreases at every recursive step; every claim about the builder is
conditioned on an `ok` run at its stated fuel. -/
def buildRequestInit (env : Env) (protoPkg : String) (fuel : Nat) (msg : Message)
    (data : List (String × JValue)) : Res FieldNode :=
  match fuel with
  | 0 => .fuelOut
  | fuel + 1 =>
    let pk := protoPkgNameOf protoPkg
    let rootTypeName := getGoTypeName env msg pk
    if data.isEmpty then
      .ok (.mk "" rootTypeName "" true false false false [] [] [])
    else
      match buildChildren env protoPkg fuel msg msg.fields data with
      | .ok children => .ok (.mk "" rootTypeName "" true false false false children [] [])
      | .panicked => .panicked
      | .fuelOut => .fuelOut

/-- The field loop of `buildRequestInit`: fields with no value under either
name are skipped, the rest produce at most one child each. -/
def buildChildren (env : Env) (protoPkg : String) (fuel : Nat) (msg : Message)
    (fields : List Field) (data : List (String × JValue)) : Res (List FieldNode) :=
  match fuel with
  | 0 => .fuelOut
  | fuel + 1 =>
    match fields with
    | [] => .ok []
    | f :: rest =>
      match fieldValue data f with
      | none => buildChildren env protoPkg fuel msg rest data
      | some val =>
        match buildFieldNode env protoPkg fuel msg f val with
        | .ok none => buildChildren env protoPkg fuel msg rest data
        | .ok (some node) =>
          match buildChildren env protoPkg fuel msg rest data with
          | .ok nodes => .ok (node :: nodes)
          | .panicked => .panicked
          | .fuelOut => .fuelOut
        | .panicked => .panicked
        | .fuelOut => .fuelOut

/-- The per-field body of the loop: the repeated / map / singular branches,
returning `ok none` where the Go code hits `continue` (a value of mismatched
dynamic shape, a nil message type on a guarded path, or an entry message
without a "value" field). -/
def buildFieldNode (env : Env) (protoPkg : String) (fuel : Nat) (msg : Message)
    (f : Field) (val : JValue) : Res (Option FieldNode) :=
  match fuel with
  | 0 => .fuelOut
  | fuel + 1 =>
    let pk := protoPkgNameOf protoPkg
    let goFieldName := toPascalCase f.name
    if f.repeated then
      match val with
      | .arr sliceVal =>
        let elemType := repeatedElemType env pk f
        let mt : Option Message :=
          match f.messageType with
          | none => none
          | some id => envFind env id
        match buildRepItems env protoPkg fuel (f.typez = Typez.MESSAGE_TYPE) mt elemType sliceVal with
        | .ok items =>
          .ok (some (wrapOneOf pk msg f
            (.mk goFieldName ("[]" ++ elemType) "" false true false false [] items [])))
        | .panicked => .panicked
        | .fuelOut => .fuelOut
      | _ => .ok none
    else if f.isMap then
      match val with
      | .obj mapVal =>
        match f.messageType with
        | none => .ok none
        | some mid =>
          match envFind env mid with
          | none => .panicked
          | some em =>
            match em.fields.find? (fun sf => sf.name == "value") with
            | none => .ok none
            | some valueField =>
              let vt : String × Option Message :=
                match valueField.typez with
                | .MESSAGE_TYPE =>
                  match valueField.messageType with
                  | none => ("string", none)
                  | some vid =>
                    match envFind env vid with
                    | none => ("string", none)
                    | some vm => ("*" ++ getGoTypeName env vm pk, some vm)
                | _ => ("string", none)
              match buildMapEntries env protoPkg fuel vt.2 vt.1 mapVal with
              | .ok entries =>
                .ok (some (wrapOneOf pk msg f
                  (.mk goFieldName ("map[string]" ++ vt.1) "" false false true false [] [] entries)))
              | .panicked => .panicked
              | .fuelOut => .fuelOut
      | _ => .ok none
    else
      match f.typez with
      | .MESSAGE_TYPE =>
        match f.messageType with
        | none => .ok none
        | some mid =>
          match val with
          | .obj subData =>
            match envFind env mid with
            | none => .panicked
            | some mt =>
              match buildRequestInit env protoPkg fuel mt subData with
              | .ok sub =>
                let child := sub.setTypeName (getGoTypeName env mt pk)
                .ok (some (wrapOneOf pk msg f
                  (.mk goFieldName child.typeName "" true false false false child.children [] [])))
              | .panicked => .panicked
              | .fuelOut => .fuelOut
          | _ => .ok none
      | _ =>
        let typeStr := singularTypeStr f
        .ok (some (wrapOneOf pk msg f
          (.mk goFieldName "" (formatPrimitive val typeStr) false false false true [] [] [])))

/-- The item loop of a repeated field: message elements recurse into the
builder (skipping non-objects; a nil element message type is the nil
dereference panic), scalar elements all become primitive nodes. -/
def buildRepItems (env : Env) (protoPkg : String) (fuel : Nat) (isMsg : Bool)
    (mt : Option Message) (elemType : String) (items : List JValue) : Res (List FieldNode) :=
  match fuel with
  | 0 => .fuelOut
  | fuel + 1 =>
    match items with
    | [] => .ok []
    | item :: rest =>
      if isMsg then
        match item with
        | .obj subData =>
          match mt with
          | none => .panicked
          | some m =>
            match buildRequestInit env protoPkg fuel m subData with
            | .ok sub =>
              let child := sub.setTypeName (trimPrefixStar elemType)
              match buildRepItems env protoPkg fuel isMsg mt elemType rest with
              | .ok ns => .ok (child :: ns)
              | .panicked => .panicked
              | .fuelOut => .fuelOut
            | .panicked => .panicked
            | .fuelOut => .fuelOut
        | _ => buildRepItems env protoPkg fuel isMsg mt elemType rest
      else
        let child : FieldNode := .mk "" "" (formatPrimitive item elemType) false false false true [] [] []
        match buildRepItems env protoPkg fuel isMsg mt elemType rest with
        | .ok ns => .ok (child :: ns)
        | .panicked => .panicked
        | .fuelOut => .fuelOut

/-- The entry loop of a map field, iterating the JSON object's entries in
the order carried by the model (Go iterates the decoded map with `range`,
whose order is unspecified): message-typed values recurse into the builder
(skipping non-objects), scalar values become primitive nodes. -/
def buildMapEntries (env : Env) (protoPkg : String) (fuel : Nat)
    (vmOpt : Option Message) (valTypeStr : String) (entries : List (String × JValue)) :
    Res (List (String × FieldNode)) :=
  match fuel with
  | 0 => .fuelOut
  | fuel + 1 =>
    match entries with
    | [] => .ok []
    | (k, v) :: rest =>
      match vmOpt with
      | some vm =>
        match v with
        | .obj subData =>
          match buildRequestInit env protoPkg fuel vm subData with
          | .ok sub =>
            let valNode := sub.setTypeName (trimPrefixStar valTypeStr)
            match buildMapEntries env protoPkg fuel vmOpt valTypeStr rest with
            | .ok ns => .ok ((k, valNode) :: ns)
            | .panicked => .panicked
            | .fuelOut => .fuelOut
          | .panicked => .panicked
          | .fuelOut => .fuelOut
        | _ => buildMapEntries env protoPkg fuel vmOpt valTypeStr rest
      | none =>
        let valNode : FieldNode := .mk "" "" (formatPrimitive v valTypeStr) false false false true [] [] []
        match buildMapEntries env protoPkg fuel vmOpt valTypeStr rest with
        | .ok ns => .ok ((k, valNode) :: ns)
        | .panicked => .panicked
        | .fuelOut => .fuelOut

end

end golang

/-! ### The curl emitter's path substitution (`curl.go`) -/

namespace curl

open morph

/-- The inner `FieldPath` loop of `GenerateCurl`'s path construction:
`path += "/" + data[fieldPath].(string)` — an unchecked type assertion on a
top-level map index.  A missing key gives `nil`, and asserting a nil or
non-string value panics (`none`). -/
def curlFieldPaths (data : List (String × JValue)) (fps : List String) (path : String) :
    Option String :=
  match fps with
  | [] => some path
  | fp :: rest =>
    match jlookup data fp with
    | some (.str s) => curlFieldPaths data rest (path ++ "/" ++ s)
    | _ => none

/-- The segment loop of `GenerateCurl`'s path construction: literals are
appended, then each variable's field paths are substituted from the request
data. -/
def buildCurlPath (data : List (String × JValue)) (segs : List PathSegment) (path : String) :
    Option String :=
  match segs with
  | [] => some path
  | seg :: rest =>
    let path1 :=
      match seg.literal with
      | some l => path ++ "/" ++ l
      | none => path
    match seg.varSegment with
    | none => buildCurlPath data rest path1
    | some v =>
      match curlFieldPaths data v.fieldPath path1 with
      | none => none
      | some path2 => buildCurlPath data rest path2

/-- Path substitution of `GenerateCurl` for one binding (the Go code always
uses `Bindings[0]`). -/
def generateCurlPath (data : List (String × JValue)) (binding : PathBinding) : Option String :=
  buildCurlPath data binding.pathTemplate.segments ""

end curl

/-! ## Derived definitions used by the theorems -/

namespace morph

/-- A prefix walk of `matchLoop` that consumes every token: each wildcard
consumes one part, each literal equals its part. -/
def walkOK : List String → List String → Bool
  | [], [] => true
  | p :: ps, s :: ss =>
    if s = "*" ∨ s = "**" then walkOK ps ss
    else decide (p = s) && walkOK ps ss
  | _, _ => false

/-- The last literal seen by `matchLoop` after walking tokens `segs` with
initial last-literal `l` (wildcards leave it unchanged). -/
def lastLitAfter (segs : List String) (l : String) : String :=
  segs.foldl (fun acc s => if s = "*" ∨ s = "**" then acc else s) l

/-- The ordered capture events `matchLoop` records along a walk: one
`(singularized last literal, part)` pair per wildcard that follows some
literal. -/
def capSeq : List String → List String → String → List (String × String)
  | p :: ps, s :: ss, l =>
    if s = "*" ∨ s = "**" then
      (if l ≠ "" then [(trimSuffixS l, p)] else []) ++ capSeq ps ss l
    else capSeq ps ss s
  | _, _, _ => []

end morph

namespace golang

def Res.isOk {α : Type} : Res α → Bool
  | .ok _ => true
  | _ => false

/-- Number of children of an `ok` build result (`0` otherwise). -/
def childCount (r : Res FieldNode) : Nat :=
  match r with
  | .ok n => n.children.length
  | _ => 0

/-- Child names of an `ok` build result. -/
def childNames (r : Res FieldNode) : List String :=
  match r with
  | .ok n => n.children.map FieldNode.name
  | _ => []

/-- Rendered text of an `ok` build result. -/
def renderOf (r : Res FieldNode) : String :=
  match r with
  | .ok n => n.render
  | _ => ""

open api in
/-- Whether a present JSON value has the dynamic shape the builder requires
to produce a child for field `f`: an array for repeated fields; for map
fields an object together with a resolvable entry message that has a
"value" field; for singular message fields a declared, resolvable message
type and an object value; any value for singular scalars. -/
def shapeOK (env : Env) (f : Field) (v : JValue) : Bool :=
  if f.repeated then v.isArr
  else if f.isMap then
    match v with
    | .obj _ =>
      match f.messageType with
      | none => false
      | some id =>
        match envFind env id with
        | none => false
        | some em => (em.fields.find? (fun sf => sf.name == "value")).isSome
    | _ => false
  else
    match f.typez with
    | .MESSAGE_TYPE =>
      match f.messageType with
      | none => false
      | some id => (envFind env id).isSome && v.isObj
    | _ => true

open api in
/-- Whether the builder produces a child for field `f` on input `data`: the
field must be present (by declared or JSON name) with a shape-compatible
value. -/
def included (env : Env) (data : List (String × JValue)) (f : Field) : Bool :=
  match fieldValue data f with
  | none => false
  | some v => shapeOK env f v

open api in
/-- The name the builder gives the child of field `f`: the pascal-cased
oneof group name for oneof members, the pascal-cased field name otherwise. -/
def childName (f : Field) : String :=
  match f.group with
  | some g => if f.isOneOf then toPascalCase g else toPascalCase f.name
  | none => toPascalCase f.name

end golang

namespace curl

/-- Whether the request holds a string at a top-level key. -/
def isStrAt (data : List (String × JValue)) (fp : String) : Bool :=
  match jlookup data fp with
  | some (.str _) => true
  | _ => false

open morph in
/-- The precondition under which `GenerateCurl`'s path substitution cannot
panic: every field path named by a variable segment is present in the
request with a string value. -/
def curlPre (data : List (String × JValue)) (segs : List PathSegment) : Bool :=
  segs.all (fun seg =>
    match seg.varSegment with
    | none => true
    | some v => v.fieldPath.all (isStrAt data))

end curl

namespace convert

def refKeys (st : WalkerState) : List String := st.refMap.map Prod.fst

def defKeys (st : WalkerState) : List String := st.defs.map Prod.fst

open api in
/-- The distinct message IDs of an environment. -/
def envIds (env : Env) : List String := (env.map Message.id).dedup

open api in
/-- How many environment IDs the walker has not visited yet: the measure
that shrinks when `getRef` inserts a fresh reference. -/
def freshCount (env : Env) (st : WalkerState) : Nat :=
  ((envIds env).filter (fun id => (alookup st.refMap id).isNone)).length

/-- Pointwise extension of the visited map: every stored reference is
preserved (the walker only ever appends fresh entries). -/
def RefExt (st st' : WalkerState) : Prop :=
  ∀ k v, alookup st.refMap k = some v → alookup st'.refMap k = some v

/-- The walker-state invariant: definition keys are distinct and every
defined ID is visited. -/
def StInv (st : WalkerState) : Prop :=
  (defKeys st).Nodup ∧ ∀ k ∈ defKeys st, (alookup st.refMap k).isSome

/-- The walker only ever appends to the visited map. -/
def RefAppended (st st' : WalkerState) : Prop :=
  ∃ t, st'.refMap = st.refMap ++ t

/-- Every key of the definitions table is visited under its canonical
reference string `#/definitions/` ++ key. -/
def DefsRefd (st : WalkerState) : Prop :=
  ∀ k ∈ defKeys st, alookup st.refMap k = some ("#/definitions/" ++ k)

/-- The state relation every walker step establishes: the visited map is
extended by appending, and the definitions invariant (distinct keys, each
visited under its canonical reference) is preserved. -/
def WOK (st st' : WalkerState) : Prop :=
  RefAppended st st' ∧
  ((defKeys st).Nodup ∧ DefsRefd st → (defKeys st').Nodup ∧ DefsRefd st')

/-- The smallest cyclic message graph: a message whose only field refers
back to the message itself (the `RecursiveMsg` shape of the exporter
tests). -/
def recMsg : api.Message :=
  { id := "RecMsg", name := "RecMsg",
    fields := [{ name := "self", jsonName := "self", typez := api.Typez.MESSAGE_TYPE,
                 messageType := some "RecMsg" }] }

end convert

/-! ## Theorems

Each claim gets exactly one theorem (with a counterexample theorem where the
claim fails as stated, and a witness theorem where the main theorem carries
hypotheses).  Shared helper lemmas come first. -/

section GcloudLemmas

open morph

/-- Membership in the flag list after one mapping step: a new flag can only
come from the property itself, with its non-empty non-null value. -/
lemma gcloudStep_flags (data : JValue) (used : List String)
    (acc : List (Int × String) × List GcloudFlag) (p : FlagMapping) (g : GcloudFlag)
    (hg : g ∈ (gcloudStep data used acc p).2) :
    g ∈ acc.2 ∨ (g.name = p.flag ∧
      ¬ (mappingValue data p = "" ∨ mappingValue data p = "null")) := by
  unfold gcloudStep at hg
  split at hg
  · exact Or.inl hg
  · split at hg
    · exact Or.inl hg
    · split at hg
      · dsimp only at hg
        split at hg
        · exact Or.inl hg
        · rcases List.mem_append.mp hg with h | h
          · exact Or.inl h
          · simp only [List.mem_singleton] at h
            subst h
            exact Or.inr ⟨rfl, by assumption⟩
      · exact Or.inl hg

/-- Flags produced by the mapping loop: a flag named `fn` can only be
appended by a property whose flag is `fn` and whose value is neither empty
nor `"null"`. -/
lemma gcloudFold_no_flag_of_empty (data : JValue) (used : List String) (fn : String) :
    ∀ (props : List FlagMapping) (acc : List (Int × String) × List GcloudFlag),
      (∀ p ∈ props, p.flag = fn →
        mappingValue data p = "" ∨ mappingValue data p = "null") →
      (∀ g ∈ acc.2, g.name ≠ fn) →
      ∀ g ∈ (props.foldl (gcloudStep data used) acc).2, g.name ≠ fn := by
  intro props
  induction props with
  | nil => intro acc _ hacc g hg; exact hacc g hg
  | cons p rest ih =>
    intro acc hall hacc g hg
    refine ih (gcloudStep data used acc p) (fun q hq => hall q (List.mem_cons_of_mem _ hq)) ?_ g hg
    intro g' hg'
    rcases gcloudStep_flags data used acc p g' hg' with h | ⟨hname, hnv⟩
    · exact hacc g' h
    · intro hfn
      exact hnv (hall p (List.mem_cons_self _ _) (hname ▸ hfn))

end GcloudLemmas

/-- C4: a named-flag mapping whose located value is the empty string or the
JSON literal null produces no flag: if every mapping carrying a given flag
token locates an empty or null value, the generated flag list contains no
flag with that token; and on the request
`{"present":"here","empty":"","null_val":null}` with mappings for all three
fields, the generated gcloud data holds exactly the single flag
`--present 'here'` (and no positional arguments). -/
theorem c4_empty_and_null_values_emit_no_flag :
    (∀ (data : JValue) (used : List String) (props : List morph.FlagMapping) (fn : String),
      (∀ p ∈ props, p.flag = fn →
        morph.mappingValue data p = "" ∨ morph.mappingValue data p = "null") →
      ∀ g ∈ (morph.gcloudFold data used props).2, g.name ≠ fn)
    ∧ morph.generateGcloudData
        { command := "gcloud test", messageId := "TestMsg",
          properties := [
            { flag := "--present", fieldPath := "present" },
            { flag := "--empty", fieldPath := "empty" },
            { flag := "--null", fieldPath := "null_val" }] }
        none
        (.obj [("present", .str "here"), ("empty", .str ""), ("null_val", .null)])
      = { command := "gcloud test", positionalArgs := [],
          flags := [{ name := "--present", value := "here", isLast := true }] } := by
  constructor
  · intro data used props fn hall
    exact gcloudFold_no_flag_of_empty data used fn props ([], [])
      hall (by intro g hg; simp at hg)
  · decide

section ChoiceLemmas

open morph

lemma resolveChoiceScalar_sound (s : String) (choices : List String) (c : String)
    (h : resolveChoiceScalar s choices = some c) :
    c ∈ choices ∧ normalizeChoice s = normalizeChoice c := by
  unfold resolveChoiceScalar at h
  have hp := List.find?_some h
  exact ⟨List.mem_of_find?_eq_some h, eq_of_beq hp⟩

lemma resolveChoiceScalar_complete (s : String) (choices : List String)
    (h : ∃ c ∈ choices, normalizeChoice s = normalizeChoice c) :
    (resolveChoiceScalar s choices).isSome := by
  unfold resolveChoiceScalar
  rcases h with ⟨c, hc, he⟩
  exact List.find?_isSome.mpr ⟨c, hc, beq_of_eq he⟩

lemma resolveChoiceObj_sound (entries : List (String × JValue)) (choices : List String)
    (c : String) (h : resolveChoiceObj entries choices = some c) :
    c ∈ choices ∧ ∃ kv ∈ entries, normalizeChoice kv.1 = normalizeChoice c := by
  induction entries with
  | nil => simp [resolveChoiceObj] at h
  | cons kv rest ih =>
    obtain ⟨k, v⟩ := kv
    unfold resolveChoiceObj at h
    cases hfind : choices.find? (fun c => normalizeChoice k == normalizeChoice c) with
    | some c' =>
      rw [hfind] at h
      cases h
      have hp := List.find?_some hfind
      exact ⟨List.mem_of_find?_eq_some hfind,
        ⟨(k, v), List.mem_cons_self _ _, eq_of_beq hp⟩⟩
    | none =>
      rw [hfind] at h
      obtain ⟨hc, kv', hkv', he⟩ := ih h
      exact ⟨hc, kv', List.mem_cons_of_mem _ hkv', he⟩

lemma resolveChoiceObj_complete (entries : List (String × JValue)) (choices : List String)
    (h : ∃ kv ∈ entries, ∃ c ∈ choices, normalizeChoice kv.1 = normalizeChoice c) :
    (resolveChoiceObj entries choices).isSome := by
  induction entries with
  | nil => simp at h
  | cons kv rest ih =>
    obtain ⟨k, v⟩ := kv
    unfold resolveChoiceObj
    cases hfind : choices.find? (fun c => normalizeChoice k == normalizeChoice c) with
    | some c' => simp
    | none =>
      simp only
      rcases h with ⟨kv', hkv', c, hc, he⟩
      rcases List.mem_cons.mp hkv' with heq | hmem
      · subst heq
        have : (choices.find? (fun c => normalizeChoice k == normalizeChoice c)).isSome :=
          List.find?_isSome.mpr ⟨c, hc, beq_of_eq he⟩
        rw [hfind] at this
        simp at this
      · exact ih ⟨kv', hmem, c, hc, he⟩

end ChoiceLemmas

/-- C6: choice resolution is case- and separator-insensitive.  A declared
choice is selected exactly when its normalized form (lower-cased, hyphens
and underscores removed) equals a normalized object key (object branch) or
the normalized scalar text (scalar branch), and the *declared* literal is
what gets selected; `"userManaged"` normalizes like `"user-managed"`, and a
request whose `secret.replication` object has the key `userManaged` yields
the declared choice text `user-managed` as the flag value. -/
theorem c6_choice_normalization :
    (∀ (entries : List (String × JValue)) (choices : List String) (c : String),
      morph.resolveChoiceObj entries choices = some c →
      c ∈ choices ∧ ∃ kv ∈ entries, morph.normalizeChoice kv.1 = morph.normalizeChoice c)
    ∧ (∀ (entries : List (String × JValue)) (choices : List String),
      (∃ kv ∈ entries, ∃ c ∈ choices, morph.normalizeChoice kv.1 = morph.normalizeChoice c) →
      (morph.resolveChoiceObj entries choices).isSome)
    ∧ (∀ (s : String) (choices : List String) (c : String),
      morph.resolveChoiceScalar s choices = some c →
      c ∈ choices ∧ morph.normalizeChoice s = morph.normalizeChoice c)
    ∧ (∀ (s : String) (choices : List String),
      (∃ c ∈ choices, morph.normalizeChoice s = morph.normalizeChoice c) →
      (morph.resolveChoiceScalar s choices).isSome)
    ∧ morph.normalizeChoice "userManaged" = morph.normalizeChoice "user-managed"
    ∧ morph.mappingValue
        (.obj [("secret", .obj [("replication", .obj [("userManaged", .obj [])])])])
        { flag := "--replication-policy", fieldPath := "secret.replication",
          choices := ["automatic", "user-managed"] } = "user-managed" :=
  ⟨resolveChoiceObj_sound, resolveChoiceObj_complete,
   resolveChoiceScalar_sound, resolveChoiceScalar_complete,
   by decide, by decide⟩

/-- Witness for C6: the object branch applied to the key `userManaged` with
declared choices `automatic` / `user-managed`. -/
theorem c6_witness :
    "user-managed" ∈ ["automatic", "user-managed"] ∧
    ∃ kv ∈ [("userManaged", JValue.obj [])],
      morph.normalizeChoice kv.1 = morph.normalizeChoice "user-managed" :=
  c6_choice_normalization.1 [("userManaged", JValue.obj [])] ["automatic", "user-managed"]
    "user-managed" (by decide)

section CurlLemmas

open curl

lemma curlFieldPaths_isSome (data : List (String × JValue)) :
    ∀ (fps : List String) (path : String),
      (∀ fp ∈ fps, isStrAt data fp = true) →
      (curlFieldPaths data fps path).isSome := by
  intro fps
  induction fps with
  | nil => intro path _; simp [curlFieldPaths]
  | cons fp rest ih =>
    intro path h
    have hfp := h fp (List.mem_cons_self _ _)
    unfold curlFieldPaths
    unfold isStrAt at hfp
    cases hlk : jlookup data fp with
    | none => rw [hlk] at hfp; simp at hfp
    | some v =>
      rw [hlk] at hfp
      cases v with
      | str s => exact ih _ (fun q hq => h q (List.mem_cons_of_mem _ hq))
      | null => simp at hfp
      | bool b => simp at hfp
      | num q => simp at hfp
      | arr l => simp at hfp
      | obj l => simp at hfp

lemma buildCurlPath_isSome (data : List (String × JValue)) :
    ∀ (segs : List morph.PathSegment) (path : String),
      curlPre data segs = true → (buildCurlPath data segs path).isSome := by
  intro segs
  induction segs with
  | nil => intro path _; simp [buildCurlPath]
  | cons seg rest ih =>
    intro path h
    rw [curlPre, List.all_cons, Bool.and_eq_true] at h
    obtain ⟨hseg, hrest⟩ := h
    unfold buildCurlPath
    dsimp only
    cases hv : seg.varSegment with
    | none => exact ih _ hrest
    | some v =>
      rw [hv] at hseg
      have hseg' : v.fieldPath.all (isStrAt data) = true := hseg
      have hs := curlFieldPaths_isSome data v.fieldPath
        (match seg.literal with
          | some l => path ++ "/" ++ l
          | none => path)
        (fun fp hfp => List.all_eq_true.mp hseg' fp hfp)
      cases hcf : curlFieldPaths data v.fieldPath
          (match seg.literal with
            | some l => path ++ "/" ++ l
            | none => path) with
      | none => rw [hcf] at hs; simp at hs
      | some p2 =>
        simp only [hcf]
        exact ih _ hrest

end CurlLemmas

/-- C10: the path substitution of `GenerateCurl` is total exactly under the
precondition that every field path named by a variable segment of the
binding is present in the request with a string value — under `curlPre` the
substitution always produces a path, while the unchecked `.(string)` type
assertion makes it panic (`none`) on a request holding a number at the
referenced field. -/
theorem c10_curl_path_assertion_panics :
    (∀ (data : List (String × JValue)) (segs : List morph.PathSegment) (path : String),
      curl.curlPre data segs = true → (curl.buildCurlPath data segs path).isSome)
    ∧ curl.generateCurlPath [("parent", JValue.num 5)]
        { pathTemplate := { segments := [
            { literal := some "v1" },
            { varSegment := some { fieldPath := ["parent"] } }] } } = none := by
  constructor
  · intro data segs path h
    exact buildCurlPath_isSome data segs path h
  · rfl

/-- Witness for C10: the precondition holds for a request carrying a string
`parent`, so the substitution succeeds there. -/
theorem c10_witness :
    (curl.buildCurlPath [("parent", JValue.str "p")]
      [{ literal := some "v1" },
       { varSegment := some { fieldPath := ["parent"] } }] "").isSome :=
  c10_curl_path_assertion_panics.1 [("parent", JValue.str "p")]
    [{ literal := some "v1" }, { varSegment := some { fieldPath := ["parent"] } }] ""
    (by decide)

section QuoteLemmas

lemma strmk_append (a b : List Char) : String.mk a ++ String.mk b = String.mk (a ++ b) := rfl

lemma goQuote_fold_plain :
    ∀ (l : List Char) (acc : String),
      (∀ c ∈ l, escChar c = String.mk [c]) →
      (l.map escChar).foldl (· ++ ·) acc = acc ++ String.mk l := by
  intro l
  induction l with
  | nil =>
    intro acc _
    obtain ⟨d⟩ := acc
    show String.mk d = String.mk d ++ String.mk []
    rw [strmk_append, List.append_nil]
  | cons c rest ih =>
    intro acc h
    have hc := h c (List.mem_cons_self _ _)
    simp only [List.map_cons, List.foldl_cons]
    rw [ih (acc ++ escChar c) (fun x hx => h x (List.mem_cons_of_mem _ hx)), hc]
    obtain ⟨d⟩ := acc
    show String.mk d ++ String.mk [c] ++ String.mk (rest) = String.mk d ++ String.mk (c :: rest)
    rw [strmk_append, strmk_append, strmk_append]
    simp

lemma goQuote_plain (s : String) (h : ∀ c ∈ s.data, escChar c = String.mk [c]) :
    goQuote s = "\"" ++ s ++ "\"" := by
  unfold goQuote
  rw [goQuote_fold_plain s.data "" h]
  obtain ⟨d⟩ := s
  rfl

end QuoteLemmas

/-- C7 (amended): the builder coerces a JSON number (a 64-bit floating
value) by truncating it toward zero with the 64-bit conversions regardless
of a declared 32-bit width — `int32` and `int64` fields both use Go's
`int64(v)` (faithful on the int64 range; implementation-defined outside it),
`uint32` and `uint64` both use `uint64(v)` (faithful on `[0, 2^64)`), so the
32-bit ranges are not separately enforced — and string values are rendered
as quoted literals verbatim (exactly `"s"` when no character needs
escaping). -/
theorem c7_number_truncation_is_64bit :
    (∀ (q : Rat) (t : String), (t = "int32" ∨ t = "int64") →
      -(2 ^ 63) ≤ truncRat q → truncRat q < 2 ^ 63 →
      golang.formatPrimitive (.num q) t = toString (truncRat q))
    ∧ (∀ (q : Rat) (t : String), (t = "uint32" ∨ t = "uint64") →
      0 ≤ truncRat q → truncRat q < 2 ^ 64 →
      golang.formatPrimitive (.num q) t = toString (truncRat q))
    ∧ (∀ s : String, golang.formatPrimitive (.str s) "string" = goQuote s)
    ∧ (∀ s : String, (∀ c ∈ s.data, escChar c = String.mk [c]) →
      goQuote s = "\"" ++ s ++ "\"") := by
  refine ⟨?_, ?_, ?_, goQuote_plain⟩
  · intro q t ht _ _
    rcases ht with ht | ht <;> subst ht <;> simp [golang.formatPrimitive]
  · intro q t ht _ _
    rcases ht with ht | ht <;> subst ht <;> simp [golang.formatPrimitive]
  · intro s
    simp [golang.formatPrimitive]

/-- Counterexample for C7 as stated: the value 4000000000 stored in a field
whose declared type is `int32` (type string "int32", per the builder's type
switch) renders as the out-of-int32-range literal `4000000000` instead of
being truncated to the 32-bit signed range. -/
theorem c7_counterexample :
    golang.formatPrimitive (JValue.num 4000000000) "int32" = "4000000000"
    ∧ golang.singularTypeStr { name := "id", typez := api.Typez.INT32_TYPE } = "int32"
    ∧ (2147483647 : Int) < 4000000000 := by
  refine ⟨by decide, rfl, by decide⟩

/-- Witness for C7: the amended truncation equation at `4000000000` for an
`int64`-typed field. -/
theorem c7_witness :
    golang.formatPrimitive (.num 4000000000) "int64" = toString (truncRat 4000000000) :=
  c7_number_truncation_is_64bit.1 4000000000 "int64" (Or.inr rfl) (by decide) (by decide)

section DecomposeLemmas

open morph

lemma decomposeStep_none (data : JValue) (best : List (String × String) × List String)
    (b : PathBinding) (h : evalBinding data b = none) :
    decomposeStep data best b = best := by
  unfold decomposeStep
  rw [h]

lemma decomposeFold_none (data : JValue) :
    ∀ (bs : List PathBinding) (acc : List (String × String) × List String),
      (∀ b ∈ bs, evalBinding data b = none) →
      bs.foldl (decomposeStep data) acc = acc := by
  intro bs
  induction bs with
  | nil => intro acc _; rfl
  | cons b rest ih =>
    intro acc h
    rw [List.foldl_cons, decomposeStep_none data acc b (h b (List.mem_cons_self _ _))]
    exact ih acc (fun b' hb' => h b' (List.mem_cons_of_mem _ hb'))

/-- The full specification of the best-binding fold: the result dominates
every successful binding's capture count, dominates the accumulator, and is
either the accumulator itself or the first successful binding to exceed
both the accumulator and everything declared before it. -/
lemma decomposeFold_spec (data : JValue) :
    ∀ (bs : List PathBinding) (acc : List (String × String) × List String),
      (∀ b ∈ bs, ∀ du, evalBinding data b = some du →
        du.1.length ≤ (bs.foldl (decomposeStep data) acc).1.length) ∧
      acc.1.length ≤ (bs.foldl (decomposeStep data) acc).1.length ∧
      (bs.foldl (decomposeStep data) acc = acc ∨
        ∃ pre b post, bs = pre ++ b :: post ∧
          evalBinding data b = some (bs.foldl (decomposeStep data) acc) ∧
          acc.1.length < (bs.foldl (decomposeStep data) acc).1.length ∧
          (∀ b' ∈ pre, ∀ du', evalBinding data b' = some du' →
            du'.1.length < (bs.foldl (decomposeStep data) acc).1.length)) := by
  intro bs
  induction bs with
  | nil =>
    intro acc
    refine ⟨?_, le_refl _, Or.inl rfl⟩
    intro b hb
    simp at hb
  | cons b rest ih =>
    intro acc
    rw [List.foldl_cons]
    obtain ⟨ih1, ih2, ih3⟩ := ih (decomposeStep data acc b)
    cases heval : evalBinding data b with
    | none =>
      have hstep : decomposeStep data acc b = acc := decomposeStep_none data acc b heval
      rw [hstep]
      rw [hstep] at ih1 ih2 ih3
      refine ⟨?_, ih2, ?_⟩
      · intro b' hb' du hdu
        rcases List.mem_cons.mp hb' with rfl | hmem
        · rw [heval] at hdu; cases hdu
        · exact ih1 b' hmem du hdu
      · rcases ih3 with h | ⟨pre, b'', post, heq, hev, hlt, hpre⟩
        · exact Or.inl h
        · refine Or.inr ⟨b :: pre, b'', post, by rw [heq]; simp, hev, hlt, ?_⟩
          intro b' hb' du' hdu'
          rcases List.mem_cons.mp hb' with rfl | hmem
          · rw [heval] at hdu'; cases hdu'
          · exact hpre b' hmem du' hdu'
    | some du0 =>
      obtain ⟨dec, used⟩ := du0
      by_cases hlt : acc.1.length < dec.length
      · have hstep : decomposeStep data acc b = (dec, used) := by
          unfold decomposeStep
          rw [heval]
          simp [hlt]
        rw [hstep]
        rw [hstep] at ih1 ih2 ih3
        refine ⟨?_, le_trans (le_of_lt hlt) ih2, ?_⟩
        · intro b' hb' du hdu
          rcases List.mem_cons.mp hb' with rfl | hmem
          · rw [heval] at hdu
            cases hdu
            exact ih2
          · exact ih1 b' hmem du hdu
        · rcases ih3 with h | ⟨pre, b'', post, heq, hev, hlt', hpre⟩
          · refine Or.inr ⟨[], b, rest, rfl, ?_, ?_, ?_⟩
            · rw [h, heval]
            · rw [h]; exact hlt
            · intro b' hb'; simp at hb'
          · refine Or.inr ⟨b :: pre, b'', post, by rw [heq]; simp, hev, lt_trans hlt hlt', ?_⟩
            intro b' hb' du' hdu'
            rcases List.mem_cons.mp hb' with rfl | hmem
            · rw [heval] at hdu'
              cases hdu'
              exact hlt'
            · exact hpre b' hmem du' hdu'
      · have hstep : decomposeStep data acc b = acc := by
          unfold decomposeStep
          rw [heval]
          simp [hlt]
        rw [hstep]
        rw [hstep] at ih1 ih2 ih3
        refine ⟨?_, ih2, ?_⟩
        · intro b' hb' du hdu
          rcases List.mem_cons.mp hb' with rfl | hmem
          · rw [heval] at hdu
            cases hdu
            exact le_trans (Nat.le_of_not_lt hlt) ih2
          · exact ih1 b' hmem du hdu
        · rcases ih3 with h | ⟨pre, b'', post, heq, hev, hlt', hpre⟩
          · exact Or.inl h
          · refine Or.inr ⟨b :: pre, b'', post, by rw [heq]; simp, hev, hlt', ?_⟩
            intro b' hb' du' hdu'
            rcases List.mem_cons.mp hb' with rfl | hmem
            · rw [heval] at hdu'
              cases hdu'
              exact lt_of_le_of_lt (Nat.le_of_not_lt hlt) hlt'
            · exact hpre b' hmem du' hdu'

lemma decomposePathParams_eq_fold (data : JValue) (m : Method) (pinfo : PathInfo)
    (hpi : m.pathInfo = some pinfo) :
    decomposePathParams (some m) data = pinfo.bindings.foldl (decomposeStep data) ([], []) := by
  simp only [decomposePathParams, hpi]

end DecomposeLemmas

/-- C2: the path-template decomposition considers each candidate binding,
discards the failing ones, and its result dominates every non-failing
candidate's capture count; whenever the result is non-empty it is the
decomposition of an actual binding that beats every earlier-declared
binding strictly (ties therefore go to the earlier binding; and a tie at
zero captures leaves the empty map, which coincides with the captures of
any zero-variable winner).  On the two candidates `projects/*` and
`projects/*/locations/*` against `projects/p1/locations/l1`, the second is
selected, capturing project `p1` and location `l1`. -/
theorem c2_best_binding_selection :
    (∀ (data : JValue) (m : morph.Method) (pinfo : morph.PathInfo),
      m.pathInfo = some pinfo →
      (∀ b ∈ pinfo.bindings, ∀ du, morph.evalBinding data b = some du →
        du.1.length ≤ (morph.decomposePathParams (some m) data).1.length) ∧
      (morph.decomposePathParams (some m) data = ([], []) ∨
        ∃ pre b post, pinfo.bindings = pre ++ b :: post ∧
          morph.evalBinding data b = some (morph.decomposePathParams (some m) data) ∧
          0 < (morph.decomposePathParams (some m) data).1.length ∧
          (∀ b' ∈ pre, ∀ du', morph.evalBinding data b' = some du' →
            du'.1.length < (morph.decomposePathParams (some m) data).1.length)))
    ∧ morph.decomposePathParams
        (some { pathInfo := some { bindings := [
          { pathTemplate := { segments := [
              { literal := some "projects" },
              { varSegment := some { fieldPath := ["parent"],
                                     segments := ["projects", "*"] } }] } },
          { pathTemplate := { segments := [
              { literal := some "projects" },
              { varSegment := some { fieldPath := ["parent"],
                                     segments := ["projects", "*", "locations", "*"] } }] } }] } })
        (.obj [("parent", .str "projects/p1/locations/l1")])
      = ([("project", "p1"), ("location", "l1")], ["parent"]) := by
  constructor
  · intro data m pinfo hpi
    rw [decomposePathParams_eq_fold data m pinfo hpi]
    obtain ⟨h1, h2, h3⟩ := decomposeFold_spec data pinfo.bindings ([], [])
    refine ⟨h1, ?_⟩
    rcases h3 with h | ⟨pre, b, post, heq, hev, hlt, hpre⟩
    · exact Or.inl h
    · exact Or.inr ⟨pre, b, post, heq, hev, hlt, hpre⟩
  · decide

/-- Witness for C2: the single-variable binding's capture count is dominated
by the selected decomposition on the concrete two-binding method. -/
theorem c2_witness :
    ([("project", "p1")] : List (String × String)).length ≤
      (morph.decomposePathParams
        (some { pathInfo := some { bindings := [
          { pathTemplate := { segments := [
              { literal := some "projects" },
              { varSegment := some { fieldPath := ["parent"],
                                     segments := ["projects", "*"] } }] } },
          { pathTemplate := { segments := [
              { literal := some "projects" },
              { varSegment := some { fieldPath := ["parent"],
                                     segments := ["projects", "*", "locations", "*"] } }] } }] } })
        (.obj [("parent", .str "projects/p1/locations/l1")])).1.length :=
  ((c2_best_binding_selection.1
    (.obj [("parent", .str "projects/p1/locations/l1")]) _ _ rfl).1
    { pathTemplate := { segments := [
        { literal := some "projects" },
        { varSegment := some { fieldPath := ["parent"],
                               segments := ["projects", "*"] } }] } }
    (by decide) ([("project", "p1")], ["parent"]) (by decide))

/-- C8: a failing candidate binding is not an error — it is simply excluded
(removing it from the binding list leaves the decomposition unchanged) —
and when every candidate fails, the decomposition is the empty variable map
with an empty used-field set and the gcloud generation still completes,
producing exactly what it produces with no path bindings at all. -/
theorem c8_decomposition_failures_not_fatal :
    (∀ (data : JValue) (nm nm' : String) (pre post : List morph.PathBinding)
        (b : morph.PathBinding),
      morph.evalBinding data b = none →
      morph.decomposePathParams (some { name := nm, pathInfo := some { bindings := pre ++ b :: post } }) data
        = morph.decomposePathParams (some { name := nm', pathInfo := some { bindings := pre ++ post } }) data)
    ∧ (∀ (data : JValue) (m : morph.Method) (pinfo : morph.PathInfo),
      m.pathInfo = some pinfo →
      (∀ b ∈ pinfo.bindings, morph.evalBinding data b = none) →
      morph.decomposePathParams (some m) data = ([], []))
    ∧ (∀ (mapping : morph.GcloudMappingFile) (data : JValue) (m : morph.Method)
        (pinfo : morph.PathInfo),
      m.pathInfo = some pinfo →
      (∀ b ∈ pinfo.bindings, morph.evalBinding data b = none) →
      morph.generateGcloudData mapping (some m) data
        = morph.generateGcloudData mapping none data) := by
  refine ⟨?_, ?_, ?_⟩
  · intro data nm nm' pre post b hb
    rw [decomposePathParams_eq_fold data _ _ rfl, decomposePathParams_eq_fold data _ _ rfl]
    simp only [List.foldl_append, List.foldl_cons]
    rw [decomposeStep_none data _ b hb]
  · intro data m pinfo hpi hall
    rw [decomposePathParams_eq_fold data m pinfo hpi]
    exact decomposeFold_none data pinfo.bindings ([], []) hall
  · intro mapping data m pinfo hpi hall
    unfold morph.generateGcloudData
    rw [decomposePathParams_eq_fold data m pinfo hpi,
      decomposeFold_none data pinfo.bindings ([], []) hall]
    rfl

/-- Witness for C8: a binding whose variable references a field missing from
the request fails, and the decomposition with it equals the decomposition
without it. -/
theorem c8_witness :
    morph.decomposePathParams
      (some { name := "m", pathInfo := some { bindings := [
        { pathTemplate := { segments := [
            { varSegment := some { fieldPath := ["missing"],
                                   segments := ["projects", "*"] } }] } }] } })
      (.obj [("parent", .str "projects/p1")])
    = morph.decomposePathParams
        (some { name := "n", pathInfo := some { bindings := [] } })
        (.obj [("parent", .str "projects/p1")]) :=
  c8_decomposition_failures_not_fatal.1
    (.obj [("parent", .str "projects/p1")]) "m" "n" [] []
    { pathTemplate := { segments := [
        { varSegment := some { fieldPath := ["missing"],
                               segments := ["projects", "*"] } }] } }
    (by decide)

section MatchPathLemmas

open morph

lemma alookup_aupsert_self {α : Type} (l : List (String × α)) (k : String) (v : α) :
    alookup (aupsert l k v) k = some v := by
  induction l with
  | nil => simp [aupsert, alookup]
  | cons kv rest ih =>
    obtain ⟨k', v'⟩ := kv
    by_cases h : k' = k
    · subst h
      simp [aupsert, alookup]
    · simp [aupsert, alookup, h, ih]

lemma alookup_aupsert_ne {α : Type} (l : List (String × α)) (k k' : String) (v : α)
    (h : k' ≠ k) : alookup (aupsert l k v) k' = alookup l k' := by
  induction l with
  | nil =>
    unfold aupsert alookup
    rw [if_neg (fun he : k = k' => h he.symm)]
    rfl
  | cons kv rest ih =>
    obtain ⟨k0, v0⟩ := kv
    unfold aupsert
    by_cases h0 : k0 = k
    · rw [if_pos h0]
      subst h0
      unfold alookup
      rw [if_neg (fun he : k0 = k' => h he.symm), if_neg (fun he : k0 = k' => h he.symm)]
    · rw [if_neg h0]
      unfold alookup
      by_cases h1 : k0 = k'
      · rw [if_pos h1, if_pos h1]
      · rw [if_neg h1, if_neg h1]
        exact ih

lemma alookup_foldl_aupsert (k : String) :
    ∀ (ws : List (String × String)) (c : List (String × String)),
      k ∉ ws.map Prod.fst →
      alookup (ws.foldl (fun a kv => aupsert a kv.1 kv.2) c) k = alookup c k := by
  intro ws
  induction ws with
  | nil => intro c _; rfl
  | cons kv rest ih =>
    intro c h
    simp only [List.map_cons, List.mem_cons] at h
    push_neg at h
    rw [List.foldl_cons, ih _ h.2, alookup_aupsert_ne _ _ _ _ h.1]

lemma matchLoop_cons (p s : String) (ps ss : List String) (l : String)
    (c : List (String × String)) :
    matchLoop (p :: ps) (s :: ss) l c =
      if s = "*" ∨ s = "**" then
        matchLoop ps ss l (if l ≠ "" then aupsert c (trimSuffixS l) p else c)
      else if p = s then matchLoop ps ss s c
      else none := rfl

lemma lastLitAfter_cons (s : String) (ss : List String) (l : String) :
    lastLitAfter (s :: ss) l = lastLitAfter ss (if s = "*" ∨ s = "**" then l else s) := by
  unfold lastLitAfter
  rw [List.foldl_cons]

lemma capSeq_cons (p s : String) (ps ss : List String) (l : String) :
    capSeq (p :: ps) (s :: ss) l =
      if s = "*" ∨ s = "**" then
        (if l ≠ "" then [(trimSuffixS l, p)] else []) ++ capSeq ps ss l
      else capSeq ps ss s := rfl

/-- A successful `matchLoop` run returns exactly its capture events applied
to the initial map in order. -/
lemma matchLoop_capSeq :
    ∀ (parts segs : List String) (l : String) (c cap : List (String × String)),
      matchLoop parts segs l c = some cap →
      cap = (capSeq parts segs l).foldl (fun a kv => aupsert a kv.1 kv.2) c := by
  intro parts
  induction parts with
  | nil =>
    intro segs l c cap h
    cases segs with
    | nil =>
      unfold matchLoop at h
      cases h
      rfl
    | cons s ss =>
      unfold matchLoop at h
      cases h
  | cons p ps ih =>
    intro segs l c cap h
    cases segs with
    | nil =>
      unfold matchLoop at h
      cases h
      rfl
    | cons s ss =>
      rw [matchLoop_cons] at h
      rw [capSeq_cons]
      by_cases hw : s = "*" ∨ s = "**"
      · rw [if_pos hw] at h
        rw [if_pos hw]
        by_cases hl : l ≠ ""
        · rw [if_pos hl] at h
          rw [if_pos hl, List.singleton_append, List.foldl_cons]
          exact ih ss l _ cap h
        · rw [if_neg hl] at h
          rw [if_neg hl, List.nil_append]
          exact ih ss l _ cap h
      · rw [if_neg hw] at h
        rw [if_neg hw]
        by_cases hp : p = s
        · rw [if_pos hp] at h
          exact ih ss s c cap h
        · rw [if_neg hp] at h
          cases h

/-- Walking a fully-consuming prefix advances `matchLoop` to the suffix,
with the last literal updated and the prefix's capture events applied. -/
lemma matchLoop_append :
    ∀ (pre preS : List String), walkOK pre preS = true →
      ∀ (rest restS : List String) (l : String) (c : List (String × String)),
        matchLoop (pre ++ rest) (preS ++ restS) l c
          = matchLoop rest restS (lastLitAfter preS l)
              ((capSeq pre preS l).foldl (fun a kv => aupsert a kv.1 kv.2) c) := by
  intro pre
  induction pre with
  | nil =>
    intro preS hw rest restS l c
    cases preS with
    | nil => rfl
    | cons s ss => simp [walkOK] at hw
  | cons p ps ih =>
    intro preS hw rest restS l c
    cases preS with
    | nil => simp [walkOK] at hw
    | cons s ss =>
      unfold walkOK at hw
      rw [List.cons_append, List.cons_append, matchLoop_cons, capSeq_cons, lastLitAfter_cons]
      by_cases hwild : s = "*" ∨ s = "**"
      · rw [if_pos hwild] at hw
        simp only [if_pos hwild]
        by_cases hl : l ≠ ""
        · simp only [if_pos hl, List.singleton_append, List.foldl_cons]
          exact ih ss hw rest restS l _
        · simp only [if_neg hl, List.nil_append]
          exact ih ss hw rest restS l c
      · rw [if_neg hwild] at hw
        rw [Bool.and_eq_true, decide_eq_true_eq] at hw
        obtain ⟨hps, hw⟩ := hw
        simp only [if_neg hwild, if_pos hps]
        exact ih ss hw rest restS s c

end MatchPathLemmas

/-- C5: the matcher scans the value's slash-delimited parts against the
pattern tokens in lockstep.  (1) If the walk reaches a literal token that
differs from its value part, the whole candidate fails (`none`) whatever
follows.  (2) If the walk reaches a wildcard token and a literal has been
seen, the corresponding value part is captured under the nearest preceding
literal with one trailing "s" stripped: on success the capture map holds
that part under that key, provided no later wildcard writes the same key. -/
theorem c5_literal_mismatch_and_wildcard_capture :
    (∀ (value : String) (segs pre post preS postS : List String) (p s : String),
      strSplitOn '/' value = pre ++ p :: post →
      segs = preS ++ s :: postS →
      morph.walkOK pre preS = true →
      ¬(s = "*" ∨ s = "**") →
      p ≠ s →
      morph.matchPath value segs = none)
    ∧ (∀ (value : String) (segs pre post preS postS : List String) (p w : String)
        (cap : List (String × String)),
      strSplitOn '/' value = pre ++ p :: post →
      segs = preS ++ w :: postS →
      morph.walkOK pre preS = true →
      (w = "*" ∨ w = "**") →
      morph.lastLitAfter preS "" ≠ "" →
      trimSuffixS (morph.lastLitAfter preS "") ∉
        (morph.capSeq post postS (morph.lastLitAfter preS "")).map Prod.fst →
      morph.matchPath value segs = some cap →
      alookup cap (trimSuffixS (morph.lastLitAfter preS "")) = some p) := by
  constructor
  · intro value segs pre post preS postS p s hsplit hsegs hwalk hns hne
    unfold morph.matchPath
    rw [hsplit, hsegs, matchLoop_append pre preS hwalk (p :: post) (s :: postS) "" []]
    unfold morph.matchLoop
    rw [if_neg hns, if_neg hne]
  · intro value segs pre post preS postS p w cap hsplit hsegs hwalk hw hlit hnw hsucc
    unfold morph.matchPath at hsucc
    rw [hsplit, hsegs, matchLoop_append pre preS hwalk (p :: post) (w :: postS) "" []] at hsucc
    unfold morph.matchLoop at hsucc
    rw [if_pos hw, if_pos hlit] at hsucc
    have hcap := matchLoop_capSeq post postS (morph.lastLitAfter preS "") _ cap hsucc
    rw [hcap, alookup_foldl_aupsert _ _ _ hnw]
    exact alookup_aupsert_self _ _ _

/-- Witness for C5: a mismatching literal (`bad` vs `locations`) fails the
candidate, and the wildcard after `projects` captures `p1` under key
`project`. -/
theorem c5_witness :
    morph.matchPath "projects/x/bad/y" ["projects", "*", "locations", "*"] = none ∧
    (∀ cap, morph.matchPath "projects/p1" ["projects", "*"] = some cap →
      alookup cap "project" = some "p1") := by
  constructor
  · exact c5_literal_mismatch_and_wildcard_capture.1 "projects/x/bad/y"
      ["projects", "*", "locations", "*"] ["projects", "x"] ["y"] ["projects", "*"] ["*"]
      "bad" "locations" (by decide) (by decide) (by decide) (by decide) (by decide)
  · intro cap hcap
    exact c5_literal_mismatch_and_wildcard_capture.2 "projects/p1" ["projects", "*"]
      ["projects"] [] ["projects"] [] "p1" "*" cap
      (by decide) (by decide) (by decide) (by decide) (by decide) (by decide) hcap

section MapEntryLemmas

open golang

/-- Primitive-valued map entries: every input key yields exactly one output
entry, in input (iteration) order. -/
lemma buildMapEntries_keys_prim (env : api.Env) (pk vts : String) :
    ∀ (fuel : Nat) (entries : List (String × JValue)) (res : List (String × FieldNode)),
      buildMapEntries env pk fuel none vts entries = .ok res →
      res.map Prod.fst = entries.map Prod.fst := by
  intro fuel
  induction fuel with
  | zero => intro entries res h; exact absurd h (by simp [buildMapEntries])
  | succ n ih =>
    intro entries res h
    cases entries with
    | nil =>
      unfold buildMapEntries at h
      cases h
      rfl
    | cons kv rest =>
      obtain ⟨k, v⟩ := kv
      unfold buildMapEntries at h
      dsimp only at h
      cases hrec : buildMapEntries env pk n none vts rest with
      | ok ns =>
        rw [hrec] at h
        cases h
        simp only [List.map_cons]
        rw [ih rest ns hrec]
      | panicked => rw [hrec] at h; cases h
      | fuelOut => rw [hrec] at h; cases h

/-- Message-valued map entries: the output keys are exactly the keys of the
object-shaped input entries, in input (iteration) order. -/
lemma buildMapEntries_keys_msg (env : api.Env) (pk vts : String) (vm : api.Message) :
    ∀ (fuel : Nat) (entries : List (String × JValue)) (res : List (String × FieldNode)),
      buildMapEntries env pk fuel (some vm) vts entries = .ok res →
      res.map Prod.fst = (entries.filter (fun kv => kv.2.isObj)).map Prod.fst := by
  intro fuel
  induction fuel with
  | zero => intro entries res h; exact absurd h (by simp [buildMapEntries])
  | succ n ih =>
    intro entries res h
    cases entries with
    | nil =>
      unfold buildMapEntries at h
      cases h
      rfl
    | cons kv rest =>
      obtain ⟨k, v⟩ := kv
      unfold buildMapEntries at h
      dsimp only at h
      cases v with
      | obj subData =>
        dsimp only at h
        cases hb : buildRequestInit env pk n vm subData with
        | ok sub =>
          rw [hb] at h
          dsimp only at h
          cases hrec : buildMapEntries env pk n (some vm) vts rest with
          | ok ns =>
            rw [hrec] at h
            cases h
            simp only [List.filter_cons, JValue.isObj, List.map_cons]
            rw [ih rest ns hrec]
            rfl
          | panicked => rw [hrec] at h; cases h
          | fuelOut => rw [hrec] at h; cases h
        | panicked => rw [hb] at h; cases h
        | fuelOut => rw [hb] at h; cases h
      | null =>
        simp only [List.filter_cons, JValue.isObj]
        exact ih rest res h
      | bool b =>
        simp only [List.filter_cons, JValue.isObj]
        exact ih rest res h
      | num q =>
        simp only [List.filter_cons, JValue.isObj]
        exact ih rest res h
      | str s =>
        simp only [List.filter_cons, JValue.isObj]
        exact ih rest res h
      | arr items =>
        simp only [List.filter_cons, JValue.isObj]
        exact ih rest res h

end MapEntryLemmas

/-- C9 (amended): the engine's operations are deterministic functions of the
schema, the JSON input *and the enumeration order in which Go's `range`
yields the decoded map's entries*; byte-identical output across runs is not
guaranteed, because the Go-literal emitter renders map-field entries in that
enumeration order, which Go does not fix.  What is guaranteed is the
entry-level bijection: every key of a primitive-valued JSON map produces
exactly one rendered entry, and every object-shaped entry of a
message-valued map produces exactly one rendered entry, in enumeration
order. -/
theorem c9_map_entry_bijection_not_byte_identity :
    (∀ (env : api.Env) (pk vts : String) (fuel : Nat)
        (entries : List (String × JValue)) (res : List (String × golang.FieldNode)),
      golang.buildMapEntries env pk fuel none vts entries = .ok res →
      res.map Prod.fst = entries.map Prod.fst)
    ∧ (∀ (env : api.Env) (pk vts : String) (vm : api.Message) (fuel : Nat)
        (entries : List (String × JValue)) (res : List (String × golang.FieldNode)),
      golang.buildMapEntries env pk fuel (some vm) vts entries = .ok res →
      res.map Prod.fst = (entries.filter (fun kv => kv.2.isObj)).map Prod.fst) :=
  ⟨fun env pk vts fuel entries res h => buildMapEntries_keys_prim env pk vts fuel entries res h,
   fun env pk vts vm fuel entries res h => buildMapEntries_keys_msg env pk vts vm fuel entries res h⟩

/-- Counterexample for C9 as stated: the same JSON map presented in two
enumeration orders (a legitimate pair of runs, since Go's map iteration
order is unspecified) makes the builder-plus-render pipeline produce
different bytes. -/
theorem c9_counterexample :
    List.Perm [("a", JValue.str "1"), ("b", JValue.str "2")]
      [("b", JValue.str "2"), ("a", JValue.str "1")]
    ∧ (golang.buildRequestInit
        [{ id := "M", name := "M",
           fields := [{ name := "labels", typez := .MESSAGE_TYPE, isMap := true,
                        messageType := some "E" }] },
         { id := "E",
           fields := [{ name := "key", typez := .STRING_TYPE },
                      { name := "value", typez := .STRING_TYPE }] }]
        "x/pb" 9
        { id := "M", name := "M",
          fields := [{ name := "labels", typez := .MESSAGE_TYPE, isMap := true,
                       messageType := some "E" }] }
        [("labels", .obj [("a", .str "1"), ("b", .str "2")])]).isOk
    ∧ (golang.buildRequestInit
        [{ id := "M", name := "M",
           fields := [{ name := "labels", typez := .MESSAGE_TYPE, isMap := true,
                        messageType := some "E" }] },
         { id := "E",
           fields := [{ name := "key", typez := .STRING_TYPE },
                      { name := "value", typez := .STRING_TYPE }] }]
        "x/pb" 9
        { id := "M", name := "M",
          fields := [{ name := "labels", typez := .MESSAGE_TYPE, isMap := true,
                       messageType := some "E" }] }
        [("labels", .obj [("b", .str "2"), ("a", .str "1")])]).isOk
    ∧ golang.renderOf (golang.buildRequestInit
        [{ id := "M", name := "M",
           fields := [{ name := "labels", typez := .MESSAGE_TYPE, isMap := true,
                        messageType := some "E" }] },
         { id := "E",
           fields := [{ name := "key", typez := .STRING_TYPE },
                      { name := "value", typez := .STRING_TYPE }] }]
        "x/pb" 9
        { id := "M", name := "M",
          fields := [{ name := "labels", typez := .MESSAGE_TYPE, isMap := true,
                       messageType := some "E" }] }
        [("labels", .obj [("a", .str "1"), ("b", .str "2")])])
      ≠ golang.renderOf (golang.buildRequestInit
        [{ id := "M", name := "M",
           fields := [{ name := "labels", typez := .MESSAGE_TYPE, isMap := true,
                        messageType := some "E" }] },
         { id := "E",
           fields := [{ name := "key", typez := .STRING_TYPE },
                      { name := "value", typez := .STRING_TYPE }] }]
        "x/pb" 9
        { id := "M", name := "M",
          fields := [{ name := "labels", typez := .MESSAGE_TYPE, isMap := true,
                       messageType := some "E" }] }
        [("labels", .obj [("b", .str "2"), ("a", .str "1")])]) :=
  ⟨List.Perm.swap ("b", JValue.str "2") ("a", JValue.str "1") [],
   by decide, by decide, by decide⟩

/-- Witness for C9: the key bijection evaluated on a two-entry map. -/
theorem c9_witness :
    ∃ res, golang.buildMapEntries [] "pb" 9 none "string"
        [("a", JValue.str "1"), ("b", JValue.str "2")] = .ok res ∧
      res.map Prod.fst = ["a", "b"] :=
  match hres : golang.buildMapEntries [] "pb" 9 none "string"
      [("a", JValue.str "1"), ("b", JValue.str "2")] with
  | .ok res => ⟨res, rfl,
      by rw [c9_map_entry_bijection_not_byte_identity.1 [] "pb" "string" 9 _ res hres]; rfl⟩
  | .panicked => by simp [golang.buildMapEntries] at hres
  | .fuelOut => by simp [golang.buildMapEntries] at hres

section BuilderShapeLemmas

open golang api

lemma wrapOneOf_name (pk : String) (msg : Message) (f : Field) (n : FieldNode)
    (hn : n.name = toPascalCase f.name) :
    (wrapOneOf pk msg f n).name = childName f := by
  unfold wrapOneOf childName
  cases f.group with
  | none => exact hn
  | some g =>
    by_cases h1 : f.isOneOf = true
    · simp only [if_pos h1]
      rfl
    · simp only [if_neg h1]
      exact hn

lemma buildFieldNode_shape (env : Env) (pk : String) (fuel : Nat) (msg : Message)
    (f : Field) (val : JValue) (r : Option FieldNode)
    (h : buildFieldNode env pk fuel msg f val = .ok r) :
    (r = none → shapeOK env f val = false)
    ∧ (∀ node, r = some node → shapeOK env f val = true ∧ node.name = childName f) := by
  cases fuel with
  | zero => exact absurd h (by simp [buildFieldNode])
  | succ n =>
    unfold buildFieldNode at h
    dsimp only at h
    by_cases hrep : f.repeated = true
    · rw [if_pos hrep] at h
      cases val with
      | arr sliceVal =>
        dsimp only at h
        cases hri : buildRepItems env pk n (f.typez = Typez.MESSAGE_TYPE)
            (match f.messageType with
              | none => none
              | some id => envFind env id)
            (repeatedElemType env (protoPkgNameOf pk) f) sliceVal with
        | ok items =>
          rw [hri] at h
          cases h
          refine ⟨fun hc => (nomatch hc), fun node hnode => ?_⟩
          cases hnode
          refine ⟨?_, wrapOneOf_name _ _ _ _ rfl⟩
          unfold shapeOK
          rw [if_pos hrep]
          rfl
        | panicked => rw [hri] at h; cases h
        | fuelOut => rw [hri] at h; cases h
      | null =>
        cases h
        refine ⟨fun _ => ?_, fun node hnode => (nomatch hnode)⟩
        unfold shapeOK
        rw [if_pos hrep]
        rfl
      | bool b =>
        cases h
        refine ⟨fun _ => ?_, fun node hnode => (nomatch hnode)⟩
        unfold shapeOK
        rw [if_pos hrep]
        rfl
      | num q =>
        cases h
        refine ⟨fun _ => ?_, fun node hnode => (nomatch hnode)⟩
        unfold shapeOK
        rw [if_pos hrep]
        rfl
      | str s =>
        cases h
        refine ⟨fun _ => ?_, fun node hnode => (nomatch hnode)⟩
        unfold shapeOK
        rw [if_pos hrep]
        rfl
      | obj entries =>
        cases h
        refine ⟨fun _ => ?_, fun node hnode => (nomatch hnode)⟩
        unfold shapeOK
        rw [if_pos hrep]
        rfl
    · rw [if_neg hrep] at h
      by_cases hmap : f.isMap = true
      · rw [if_pos hmap] at h
        cases val with
        | obj mapVal =>
          dsimp only at h
          cases hmt : f.messageType with
          | none =>
            rw [hmt] at h
            cases h
            refine ⟨fun _ => ?_, fun node hnode => (nomatch hnode)⟩
            unfold shapeOK
            rw [if_neg hrep, if_pos hmap]
            dsimp only
            rw [hmt]
          | some mid =>
            rw [hmt] at h
            dsimp only at h
            cases he : envFind env mid with
            | none => rw [he] at h; cases h
            | some em =>
              rw [he] at h
              dsimp only at h
              cases hvf : em.fields.find? (fun sf => sf.name == "value") with
              | none =>
                rw [hvf] at h
                cases h
                refine ⟨fun _ => ?_, fun node hnode => (nomatch hnode)⟩
                unfold shapeOK
                rw [if_neg hrep, if_pos hmap]
                dsimp only
                rw [hmt]
                dsimp only
                rw [he]
                dsimp only
                rw [hvf]
                rfl
              | some valueField =>
                rw [hvf] at h
                dsimp only at h
                cases hbm : buildMapEntries env pk n
                    (match valueField.typez with
                      | Typez.MESSAGE_TYPE =>
                        match valueField.messageType with
                        | none => ("string", none)
                        | some vid =>
                          match envFind env vid with
                          | none => ("string", none)
                          | some vm => ("*" ++ getGoTypeName env vm (protoPkgNameOf pk), some vm)
                      | _ => ("string", (none : Option Message))).2
                    (match valueField.typez with
                      | Typez.MESSAGE_TYPE =>
                        match valueField.messageType with
                        | none => ("string", none)
                        | some vid =>
                          match envFind env vid with
                          | none => ("string", none)
                          | some vm => ("*" ++ getGoTypeName env vm (protoPkgNameOf pk), some vm)
                      | _ => ("string", (none : Option Message))).1
                    mapVal with
                | ok entries =>
                  rw [hbm] at h
                  cases h
                  refine ⟨fun hc => (nomatch hc), fun node hnode => ?_⟩
                  cases hnode
                  refine ⟨?_, wrapOneOf_name _ _ _ _ rfl⟩
                  unfold shapeOK
                  rw [if_neg hrep, if_pos hmap]
                  dsimp only
                  rw [hmt]
                  dsimp only
                  rw [he]
                  dsimp only
                  rw [hvf]
                  rfl
                | panicked => rw [hbm] at h; cases h
                | fuelOut => rw [hbm] at h; cases h
        | null =>
          cases h
          refine ⟨fun _ => ?_, fun node hnode => (nomatch hnode)⟩
          unfold shapeOK
          rw [if_neg hrep, if_pos hmap]
        | bool b =>
          cases h
          refine ⟨fun _ => ?_, fun node hnode => (nomatch hnode)⟩
          unfold shapeOK
          rw [if_neg hrep, if_pos hmap]
        | num q =>
          cases h
          refine ⟨fun _ => ?_, fun node hnode => (nomatch hnode)⟩
          unfold shapeOK
          rw [if_neg hrep, if_pos hmap]
        | str s =>
          cases h
          refine ⟨fun _ => ?_, fun node hnode => (nomatch hnode)⟩
          unfold shapeOK
          rw [if_neg hrep, if_pos hmap]
        | arr items =>
          cases h
          refine ⟨fun _ => ?_, fun node hnode => (nomatch hnode)⟩
          unfold shapeOK
          rw [if_neg hrep, if_pos hmap]
      · rw [if_neg hmap] at h
        by_cases hM : f.typez = Typez.MESSAGE_TYPE
        · rw [hM] at h
          dsimp only at h
          cases hmt : f.messageType with
          | none =>
            rw [hmt] at h
            cases h
            refine ⟨fun _ => ?_, fun node hnode => (nomatch hnode)⟩
            unfold shapeOK
            rw [if_neg hrep, if_neg hmap, hM]
            dsimp only
            rw [hmt]
          | some mid =>
            rw [hmt] at h
            dsimp only at h
            cases val with
            | obj subData =>
              dsimp only at h
              cases he : envFind env mid with
              | none => rw [he] at h; cases h
              | some mt =>
                rw [he] at h
                dsimp only at h
                cases hb : buildRequestInit env pk n mt subData with
                | ok sub =>
                  rw [hb] at h
                  cases h
                  refine ⟨fun hc => (nomatch hc), fun node hnode => ?_⟩
                  cases hnode
                  refine ⟨?_, wrapOneOf_name _ _ _ _ rfl⟩
                  unfold shapeOK
                  rw [if_neg hrep, if_neg hmap, hM]
                  dsimp only
                  rw [hmt]
                  dsimp only
                  rw [he]
                  rfl
                | panicked => rw [hb] at h; cases h
                | fuelOut => rw [hb] at h; cases h
            | null =>
              cases h
              refine ⟨fun _ => ?_, fun node hnode => (nomatch hnode)⟩
              unfold shapeOK
              rw [if_neg hrep, if_neg hmap, hM]
              dsimp only
              rw [hmt]
              simp [JValue.isObj]
            | bool b =>
              cases h
              refine ⟨fun _ => ?_, fun node hnode => (nomatch hnode)⟩
              unfold shapeOK
              rw [if_neg hrep, if_neg hmap, hM]
              dsimp only
              rw [hmt]
              simp [JValue.isObj]
            | num q =>
              cases h
              refine ⟨fun _ => ?_, fun node hnode => (nomatch hnode)⟩
              unfold shapeOK
              rw [if_neg hrep, if_neg hmap, hM]
              dsimp only
              rw [hmt]
              simp [JValue.isObj]
            | str s =>
              cases h
              refine ⟨fun _ => ?_, fun node hnode => (nomatch hnode)⟩
              unfold shapeOK
              rw [if_neg hrep, if_neg hmap, hM]
              dsimp only
              rw [hmt]
              simp [JValue.isObj]
            | arr items =>
              cases h
              refine ⟨fun _ => ?_, fun node hnode => (nomatch hnode)⟩
              unfold shapeOK
              rw [if_neg hrep, if_neg hmap, hM]
              dsimp only
              rw [hmt]
              simp [JValue.isObj]
        · cases hty : f.typez
          all_goals first
          | exact absurd hty hM
          | (rw [hty] at h
             cases h
             refine ⟨fun hc => (nomatch hc), fun node hnode => ?_⟩
             cases hnode
             refine ⟨?_, wrapOneOf_name _ _ _ _ rfl⟩
             unfold shapeOK
             rw [if_neg hrep, if_neg hmap, hty])

end BuilderShapeLemmas

section BuilderChildrenLemmas

open golang api

lemma fieldValue_nil (f : Field) : fieldValue [] f = none := by
  unfold fieldValue
  simp [jlookup]

lemma buildChildren_names (env : Env) (pk : String) (msg : Message)
    (data : List (String × JValue)) :
    ∀ (fuel : Nat) (fields : List Field) (nodes : List FieldNode),
      buildChildren env pk fuel msg fields data = .ok nodes →
      nodes.map FieldNode.name = (fields.filter (included env data)).map childName := by
  intro fuel
  induction fuel with
  | zero => intro fields nodes h; exact absurd h (by simp [buildChildren])
  | succ n ih =>
    intro fields nodes h
    cases fields with
    | nil =>
      unfold buildChildren at h
      cases h
      rfl
    | cons f rest =>
      unfold buildChildren at h
      dsimp only at h
      cases hfv : fieldValue data f with
      | none =>
        rw [hfv] at h
        have hinc : included env data f = false := by
          unfold included
          rw [hfv]
        have hrec := ih rest nodes h
        simp only [List.filter_cons, hinc]
        exact hrec
      | some val =>
        rw [hfv] at h
        dsimp only at h
        cases hbf : buildFieldNode env pk n msg f val with
        | ok r =>
          rw [hbf] at h
          obtain ⟨hnone, hsome⟩ := buildFieldNode_shape env pk n msg f val r hbf
          cases r with
          | none =>
            dsimp only at h
            have hinc : included env data f = false := by
              unfold included
              rw [hfv]
              exact hnone rfl
            have hrec := ih rest nodes h
            simp only [List.filter_cons, hinc]
            exact hrec
          | some node =>
            dsimp only at h
            obtain ⟨hshape, hname⟩ := hsome node rfl
            have hinc : included env data f = true := by
              unfold included
              rw [hfv]
              exact hshape
            cases hrec : buildChildren env pk n msg rest data with
            | ok ns =>
              rw [hrec] at h
              cases h
              simp only [List.filter_cons, hinc, if_true, List.map_cons]
              rw [ih rest ns hrec, hname]
            | panicked => rw [hrec] at h; cases h
            | fuelOut => rw [hrec] at h; cases h
        | panicked => rw [hbf] at h; cases h
        | fuelOut => rw [hbf] at h; cases h

end BuilderChildrenLemmas

/-- C3 (amended): the builder produces a message-kind root node whose
children are exactly the schema fields that are present in the JSON object
(looked up first by declared name, then by JSON name) *and* whose value has
the shape the field requires (an array for repeated fields, an object with
a resolvable "value"-carrying entry message for map fields, an object with
a declared resolvable message type for singular message fields, anything
for scalars); present fields of the wrong dynamic shape are omitted exactly
like absent ones, no default or null children are created, and the empty
JSON object yields a message-kind node with zero children. -/
theorem c3_children_present_and_shape_compatible :
    (∀ (env : api.Env) (protoPkg : String) (fuel : Nat) (msg : api.Message)
        (data : List (String × JValue)) (node : golang.FieldNode),
      golang.buildRequestInit env protoPkg fuel msg data = .ok node →
      node.isMessage = true ∧
      node.children.map golang.FieldNode.name
        = (msg.fields.filter (golang.included env data)).map golang.childName)
    ∧ (∀ (env : api.Env) (protoPkg : String) (fuel : Nat) (msg : api.Message),
      golang.buildRequestInit env protoPkg (fuel + 1) msg [] =
        .ok (golang.FieldNode.mk ""
          (golang.getGoTypeName env msg (golang.protoPkgNameOf protoPkg)) ""
          true false false false [] [] [])) := by
  constructor
  · intro env protoPkg fuel msg data node h
    cases fuel with
    | zero => exact absurd h (by simp [golang.buildRequestInit])
    | succ n =>
      unfold golang.buildRequestInit at h
      dsimp only at h
      by_cases hemp : data.isEmpty = true
      · rw [if_pos hemp] at h
        cases h
        refine ⟨rfl, ?_⟩
        have hdata : data = [] := List.isEmpty_iff.mp hemp
        subst hdata
        have hnonef : ∀ f ∈ msg.fields, ¬ (golang.included env [] f = true) := by
          intro f _
          unfold golang.included
          rw [fieldValue_nil]
          simp
        rw [List.filter_eq_nil_iff.mpr hnonef]
        rfl
      · rw [if_neg hemp] at h
        cases hbc : golang.buildChildren env protoPkg n msg msg.fields data with
        | ok children =>
          rw [hbc] at h
          cases h
          exact ⟨rfl, buildChildren_names env protoPkg msg data n msg.fields children hbc⟩
        | panicked => rw [hbc] at h; cases h
        | fuelOut => rw [hbc] at h; cases h
  · intro env protoPkg fuel msg
    rfl

/-- Counterexample for C3 as stated: the field `items` is present in the
JSON object and exists in the schema, yet the builder produces a node with
zero children, because the repeated field's value is a scalar rather than
an array. -/
theorem c3_counterexample :
    (golang.buildRequestInit [] "x/pb" 9
      { id := "M", name := "M",
        fields := [{ name := "items", typez := .STRING_TYPE, repeated := true }] }
      [("items", JValue.str "oops")]).isOk = true
    ∧ golang.childCount (golang.buildRequestInit [] "x/pb" 9
        { id := "M", name := "M",
          fields := [{ name := "items", typez := .STRING_TYPE, repeated := true }] }
        [("items", JValue.str "oops")]) = 0
    ∧ (golang.fieldValue [("items", JValue.str "oops")]
        { name := "items", typez := .STRING_TYPE, repeated := true }).isSome = true
    ∧ ({ name := "items", typez := .STRING_TYPE, repeated := true } : api.Field)
        ∈ ({ id := "M", name := "M",
             fields := [{ name := "items", typez := .STRING_TYPE, repeated := true }] }
           : api.Message).fields := by
  refine ⟨rfl, rfl, rfl, ?_⟩
  exact List.mem_cons_self _ _

/-- Witness for C3: the amended characterization applied to a one-field
message with a present string field. -/
theorem c3_witness :
    (golang.FieldNode.mk "" "pb.M" "" true false false false
        [golang.FieldNode.mk "Foo" "" "\"bar\"" false false false true [] [] []]
        [] []).isMessage = true
    ∧ (golang.FieldNode.mk "" "pb.M" "" true false false false
        [golang.FieldNode.mk "Foo" "" "\"bar\"" false false false true [] [] []]
        [] []).children.map golang.FieldNode.name
      = (({ id := "M", name := "M",
            fields := [{ name := "foo", typez := .STRING_TYPE }] } : api.Message).fields.filter
          (golang.included [] [("foo", JValue.str "bar")])).map golang.childName :=
  c3_children_present_and_shape_compatible.1 [] "x/pb" 9
    { id := "M", name := "M", fields := [{ name := "foo", typez := .STRING_TYPE }] }
    [("foo", JValue.str "bar")]
    (golang.FieldNode.mk "" "pb.M" "" true false false false
      [golang.FieldNode.mk "Foo" "" "\"bar\"" false false false true [] [] []] [] [])
    rfl

/-! ### C1: the JSON-Schema exporter walker

The walker is analysed through three families of lemmas: conditional
state-extension (`WOK`, every successful step appends to the visited map and
preserves the definitions invariant), totality (`freshCount` bounds the fuel
the walker can consume), and a properties-lookup lemma locating the schema a
given field contributes. -/

section C1ListLemmas

lemma alookup_append_left {α : Type} (l1 l2 : List (String × α)) (k : String) (v : α)
    (h : alookup l1 k = some v) : alookup (l1 ++ l2) k = some v := by
  induction l1 with
  | nil => simp [alookup] at h
  | cons kv rest ih =>
    obtain ⟨k0, v0⟩ := kv
    by_cases h0 : k0 = k
    · simp only [alookup, if_pos h0] at h
      simp only [List.cons_append, alookup, if_pos h0]
      exact h
    · simp only [alookup, if_neg h0] at h
      simp only [List.cons_append, alookup, if_neg h0]
      exact ih h

lemma alookup_append_right {α : Type} (l1 l2 : List (String × α)) (k : String)
    (h : alookup l1 k = none) : alookup (l1 ++ l2) k = alookup l2 k := by
  induction l1 with
  | nil => rfl
  | cons kv rest ih =>
    obtain ⟨k0, v0⟩ := kv
    by_cases h0 : k0 = k
    · simp [alookup, if_pos h0] at h
    · simp only [alookup, if_neg h0] at h
      simp only [List.cons_append, alookup, if_neg h0]
      exact ih h

lemma alookup_mem_keys {α : Type} (l : List (String × α)) (k : String) (v : α)
    (h : alookup l k = some v) : k ∈ l.map Prod.fst := by
  induction l with
  | nil => simp [alookup] at h
  | cons kv rest ih =>
    obtain ⟨k0, v0⟩ := kv
    by_cases h0 : k0 = k
    · simp [h0]
    · simp only [alookup, if_neg h0] at h
      simp [ih h]

lemma aupsert_keys_mem {α : Type} (l : List (String × α)) (k : String) (v : α) (a : String)
    (h : a ∈ (aupsert l k v).map Prod.fst) : a ∈ l.map Prod.fst ∨ a = k := by
  induction l with
  | nil =>
    simp [aupsert] at h
    exact Or.inr h
  | cons kv rest ih =>
    obtain ⟨k0, v0⟩ := kv
    by_cases h0 : k0 = k
    · simp only [aupsert, if_pos h0, List.map_cons] at h
      simp only [List.map_cons]
      exact Or.inl h
    · simp only [aupsert, if_neg h0, List.map_cons, List.mem_cons] at h
      simp only [List.map_cons, List.mem_cons]
      rcases h with h | h
      · exact Or.inl (Or.inl h)
      · rcases ih h with h1 | h1
        · exact Or.inl (Or.inr h1)
        · exact Or.inr h1

lemma aupsert_keys_nodup {α : Type} (l : List (String × α)) (k : String) (v : α)
    (h : (l.map Prod.fst).Nodup) : ((aupsert l k v).map Prod.fst).Nodup := by
  induction l with
  | nil => simp [aupsert]
  | cons kv rest ih =>
    obtain ⟨k0, v0⟩ := kv
    simp only [List.map_cons, List.nodup_cons] at h
    by_cases h0 : k0 = k
    · simp only [aupsert, if_pos h0, List.map_cons, List.nodup_cons]
      exact h
    · simp only [aupsert, if_neg h0, List.map_cons, List.nodup_cons]
      refine ⟨?_, ih h.2⟩
      intro hmem
      rcases aupsert_keys_mem rest k v k0 hmem with h1 | h1
      · exact h.1 h1
      · exact h0 h1

lemma filter_length_mono {α : Type} (l : List α) (p q : α → Bool)
    (h : ∀ a ∈ l, p a = true → q a = true) :
    (l.filter p).length ≤ (l.filter q).length := by
  induction l with
  | nil => simp
  | cons b t ih =>
    have ht : ∀ x ∈ t, p x = true → q x = true := fun x hx => h x (List.mem_cons_of_mem b hx)
    simp only [List.filter_cons]
    by_cases hp : p b = true
    · rw [if_pos hp, if_pos (h b (List.mem_cons_self b t) hp)]
      simp only [List.length_cons]
      exact Nat.succ_le_succ (ih ht)
    · rw [if_neg hp]
      by_cases hq : q b = true
      · rw [if_pos hq]
        exact Nat.le_succ_of_le (ih ht)
      · rw [if_neg hq]
        exact ih ht

lemma filter_length_lt {α : Type} (l : List α) (p q : α → Bool) (a : α)
    (ha : a ∈ l) (hpa : p a = false) (hqa : q a = true)
    (h : ∀ x ∈ l, p x = true → q x = true) :
    (l.filter p).length < (l.filter q).length := by
  induction l with
  | nil => cases ha
  | cons b t ih =>
    have ht : ∀ x ∈ t, p x = true → q x = true := fun x hx => h x (List.mem_cons_of_mem b hx)
    simp only [List.filter_cons]
    rcases List.mem_cons.mp ha with rfl | hat
    · rw [if_neg (by simp [hpa]), if_pos hqa]
      simp only [List.length_cons]
      exact Nat.lt_succ_of_le (filter_length_mono t p q ht)
    · by_cases hp : p b = true
      · rw [if_pos hp, if_pos (h b (List.mem_cons_self b t) hp)]
        simp only [List.length_cons]
        exact Nat.succ_lt_succ (ih hat ht)
      · rw [if_neg hp]
        by_cases hq : q b = true
        · rw [if_pos hq]
          exact Nat.lt_succ_of_lt (ih hat ht)
        · rw [if_neg hq]
          exact ih hat ht

end C1ListLemmas

section C1WalkerBase

open convert
open api

lemma wok_refl (st : WalkerState) : WOK st st :=
  ⟨⟨[], by simp⟩, id⟩

lemma wok_trans {s1 s2 s3 : WalkerState} (h1 : WOK s1 s2) (h2 : WOK s2 s3) : WOK s1 s3 := by
  obtain ⟨⟨t1, ht1⟩, hi1⟩ := h1
  obtain ⟨⟨t2, ht2⟩, hi2⟩ := h2
  exact ⟨⟨t1 ++ t2, by rw [ht2, ht1, List.append_assoc]⟩, fun h => hi2 (hi1 h)⟩

lemma refAppended_alookup {st st' : WalkerState} (h : RefAppended st st')
    (k v : String) (hl : alookup st.refMap k = some v) : alookup st'.refMap k = some v := by
  obtain ⟨t, ht⟩ := h
  rw [ht]
  exact alookup_append_left _ _ _ _ hl

lemma refAppended_freshCount (env : api.Env) {st st' : WalkerState} (h : RefAppended st st') :
    freshCount env st' ≤ freshCount env st := by
  unfold freshCount
  refine filter_length_mono _ _ _ ?_
  intro id _ hid
  show (alookup st.refMap id).isNone = true
  cases hcase : alookup st.refMap id with
  | none => rfl
  | some v =>
    have hsome := refAppended_alookup h id v hcase
    have hid2 : (alookup st'.refMap id).isNone = true := hid
    rw [hsome] at hid2
    simp at hid2

lemma freshCount_insert_lt (env : api.Env) (st : WalkerState) (id r : String)
    (d : List (String × JSchema))
    (hid : id ∈ envIds env) (hnone : alookup st.refMap id = none) :
    freshCount env ⟨d, st.refMap ++ [(id, r)]⟩ < freshCount env st := by
  unfold freshCount
  refine filter_length_lt _ _ _ id hid ?_ ?_ ?_
  · show (alookup (st.refMap ++ [(id, r)]) id).isNone = false
    rw [alookup_append_right _ _ _ hnone]
    simp [alookup]
  · show (alookup st.refMap id).isNone = true
    rw [hnone]
    rfl
  · intro x _ hx
    show (alookup st.refMap x).isNone = true
    cases hcase : alookup st.refMap x with
    | none => rfl
    | some v =>
      have hsome : alookup (st.refMap ++ [(id, r)]) x = some v :=
        alookup_append_left _ _ _ _ hcase
      have hx2 : (alookup (st.refMap ++ [(id, r)]) x).isNone = true := hx
      rw [hsome] at hx2
      simp at hx2

lemma envFind_eq_id (env : api.Env) (id : String) (m : api.Message)
    (h : envFind env id = some m) : m.id = id := by
  induction env with
  | nil => simp [envFind] at h
  | cons m0 rest ih =>
    by_cases h0 : m0.id = id
    · simp only [envFind, if_pos h0] at h
      injection h with h1
      rw [← h1]
      exact h0
    · simp only [envFind, if_neg h0] at h
      exact ih h

lemma envFind_mem_map (env : api.Env) (id : String) (m : api.Message)
    (h : envFind env id = some m) : id ∈ env.map api.Message.id := by
  induction env with
  | nil => simp [envFind] at h
  | cons m0 rest ih =>
    by_cases h0 : m0.id = id
    · simp only [List.map_cons, List.mem_cons]
      exact Or.inl h0.symm
    · simp only [envFind, if_neg h0] at h
      simp only [List.map_cons, List.mem_cons]
      exact Or.inr (ih h)

lemma envFind_mem_ids (env : api.Env) (id : String) (m : api.Message)
    (h : envFind env id = some m) : id ∈ envIds env := by
  unfold envIds
  exact List.mem_dedup.mpr (envFind_mem_map env id m h)

end C1WalkerBase

section C1Walker

open convert
open api

/-- Every successful walker step appends to the visited map and preserves
the definitions invariant, given that `getRef` at the same fuel does. -/
lemma walker_ext_inner (env : Env) (fuel : Nat)
    (hgr : ∀ st mid st' s, getRef env fuel st mid = some (st', s) → WOK st st') :
    (∀ st f st' s, buildFieldType env fuel st f = some (st', s) → WOK st st')
    ∧ (∀ st f st' s, buildField env fuel st f = some (st', s) → WOK st st')
    ∧ (∀ fields st props req st' props' req',
        buildObjectFields env fuel st fields props req = some (st', props', req') → WOK st st')
    ∧ (∀ st m st' s, buildObject env fuel st m = some (st', s) → WOK st st') := by
  have hbft : ∀ st f st' s, buildFieldType env fuel st f = some (st', s) → WOK st st' := by
    intro st f st' s h
    rw [convert.buildFieldType.eq_def] at h
    split at h
    all_goals first
      | (cases h; exact wok_refl _)
      | (exact hgr _ _ _ _ h)
      | (split at h <;> (cases h; exact wok_refl _))
  have hbf : ∀ st f st' s, buildField env fuel st f = some (st', s) → WOK st st' := by
    intro st f st' s h
    rw [convert.buildField.eq_def] at h
    by_cases hmap : f.isMap = true
    · rw [if_pos hmap] at h
      dsimp only at h
      cases hmt : f.messageType with
      | none =>
        rw [hmt] at h
        dsimp only at h
        cases h
        exact wok_refl _
      | some mid =>
        rw [hmt] at h
        dsimp only at h
        cases hef : api.envFind env mid with
        | none =>
          rw [hef] at h
          dsimp only at h
          cases h
          exact wok_refl _
        | some m =>
          rw [hef] at h
          dsimp only at h
          cases hfd : m.fields.find? (fun sf => sf.name == "value") with
          | none =>
            rw [hfd] at h
            dsimp only at h
            cases h
            exact wok_refl _
          | some subF =>
            rw [hfd] at h
            dsimp only at h
            cases hbt : buildFieldType env fuel st subF with
            | none =>
              rw [hbt] at h
              cases h
            | some p =>
              obtain ⟨st2, vs⟩ := p
              rw [hbt] at h
              dsimp only at h
              cases h
              exact hbft _ _ _ _ hbt
    · rw [if_neg hmap] at h
      cases hbt : buildFieldType env fuel st f with
      | none =>
        rw [hbt] at h
        cases h
      | some p =>
        obtain ⟨st2, s2⟩ := p
        rw [hbt] at h
        dsimp only at h
        split at h <;> (cases h; exact hbft _ _ _ _ hbt)
  have hbofs : ∀ fields st props req st' props' req',
      buildObjectFields env fuel st fields props req = some (st', props', req') → WOK st st' := by
    intro fields
    induction fields with
    | nil =>
      intro st props req st' props' req' h
      rw [convert.buildObjectFields.eq_def] at h
      cases h
      exact wok_refl _
    | cons f rest ih =>
      intro st props req st' props' req' h
      rw [convert.buildObjectFields.eq_def] at h
      dsimp only at h
      split at h
      · exact ih _ _ _ _ _ _ h
      · cases hbf1 : buildField env fuel st f with
        | none =>
          rw [hbf1] at h
          cases h
        | some p =>
          obtain ⟨st1, schema⟩ := p
          rw [hbf1] at h
          dsimp only at h
          exact wok_trans (hbf _ _ _ _ hbf1) (ih _ _ _ _ _ _ h)
  have hbo : ∀ st m st' s, buildObject env fuel st m = some (st', s) → WOK st st' := by
    intro st m st' s h
    rw [convert.buildObject.eq_def] at h
    cases hb1 : buildObjectFields env fuel st m.fields [] [] with
    | none =>
      rw [hb1] at h
      cases h
    | some p =>
      obtain ⟨st1, pr⟩ := p
      obtain ⟨props, req⟩ := pr
      rw [hb1] at h
      dsimp only at h
      cases h
      exact hbofs _ _ _ _ _ _ _ hb1
  exact ⟨hbft, hbf, hbofs, hbo⟩

/-- `getRef` appends to the visited map and preserves the definitions
invariant; the reference entry inserted before recursing is what keeps the
invariant through the nested `buildObject` walk. -/
lemma walker_ext_getRef (env : Env) :
    ∀ fuel st mid st' s, getRef env fuel st mid = some (st', s) → WOK st st' := by
  intro fuel
  induction fuel with
  | zero =>
    intro st mid st' s h
    cases mid with
    | none =>
      simp only [getRef] at h
      cases h
      exact wok_refl _
    | some id =>
      simp only [getRef] at h
      split at h
      · cases h
        exact wok_refl _
      · split at h
        · cases h
          exact wok_refl _
        · cases h
  | succ n ih =>
    intro st mid st' s h
    cases mid with
    | none =>
      simp only [getRef] at h
      cases h
      exact wok_refl _
    | some id =>
      simp only [getRef] at h
      split at h
      · cases h
        exact wok_refl _
      · rename_i msg hfind
        split at h
        · cases h
          exact wok_refl _
        · rename_i hnone
          cases hbo2 : buildObject env n
              (⟨st.defs, st.refMap ++ [(msg.id, "#/definitions/" ++ msg.id)]⟩ : WalkerState) msg with
          | none =>
            rw [hbo2] at h
            cases h
          | some p =>
            obtain ⟨st2, s2⟩ := p
            rw [hbo2] at h
            dsimp only at h
            cases h
            have hw12 : WOK
                (⟨st.defs, st.refMap ++ [(msg.id, "#/definitions/" ++ msg.id)]⟩ : WalkerState) st2 :=
              (walker_ext_inner env n ih).2.2.2 _ _ _ _ hbo2
            have hr1 : alookup (st.refMap ++ [(msg.id, "#/definitions/" ++ msg.id)]) msg.id
                = some ("#/definitions/" ++ msg.id) := by
              rw [alookup_append_right _ _ _ hnone]
              simp [alookup]
            have hw01 : WOK st
                (⟨st.defs, st.refMap ++ [(msg.id, "#/definitions/" ++ msg.id)]⟩ : WalkerState) := by
              refine ⟨⟨[(msg.id, "#/definitions/" ++ msg.id)], rfl⟩, ?_⟩
              intro hinv
              refine ⟨hinv.1, ?_⟩
              intro k hk
              exact alookup_append_left _ _ _ _ (hinv.2 k hk)
            have hr2 : alookup st2.refMap msg.id = some ("#/definitions/" ++ msg.id) :=
              refAppended_alookup hw12.1 msg.id _ hr1
            have hw2f : WOK st2 (⟨aupsert st2.defs msg.id s2, st2.refMap⟩ : WalkerState) := by
              refine ⟨⟨[], by simp⟩, ?_⟩
              intro hinv
              constructor
              · exact aupsert_keys_nodup _ _ _ hinv.1
              · intro k hk
                rcases aupsert_keys_mem _ _ _ _ hk with h1 | h1
                · exact hinv.2 k h1
                · rw [h1]
                  exact hr2
            exact wok_trans (wok_trans hw01 hw12) hw2f

lemma walker_ext_bf (env : Env) (fuel : Nat) :
    ∀ st f st' s, buildField env fuel st f = some (st', s) → WOK st st' :=
  (walker_ext_inner env fuel (walker_ext_getRef env fuel)).2.1

lemma walker_ext_bofs (env : Env) (fuel : Nat) :
    ∀ fields st props req st' props' req',
      buildObjectFields env fuel st fields props req = some (st', props', req') → WOK st st' :=
  (walker_ext_inner env fuel (walker_ext_getRef env fuel)).2.2.1

/-- Totality of the walker below `getRef`, given totality of `getRef` at the
same fuel: the fresh-ID count never exceeds the available fuel. -/
lemma walker_tot_inner (env : Env) (fuel : Nat)
    (hgr : ∀ st mid, freshCount env st ≤ fuel → (getRef env fuel st mid).isSome = true) :
    (∀ st f, freshCount env st ≤ fuel → (buildFieldType env fuel st f).isSome = true)
    ∧ (∀ st f, freshCount env st ≤ fuel → (buildField env fuel st f).isSome = true)
    ∧ (∀ fields st props req, freshCount env st ≤ fuel →
        (buildObjectFields env fuel st fields props req).isSome = true)
    ∧ (∀ st m, freshCount env st ≤ fuel → (buildObject env fuel st m).isSome = true) := by
  have hbft : ∀ st f, freshCount env st ≤ fuel → (buildFieldType env fuel st f).isSome = true := by
    intro st f hfc
    rw [convert.buildFieldType.eq_def]
    split
    all_goals first
      | rfl
      | (exact hgr _ _ hfc)
      | (split <;> rfl)
  have hbf : ∀ st f, freshCount env st ≤ fuel → (buildField env fuel st f).isSome = true := by
    intro st f hfc
    rw [convert.buildField.eq_def]
    by_cases hmap : f.isMap = true
    · rw [if_pos hmap]
      dsimp only
      cases hmt : f.messageType with
      | none => rfl
      | some mid =>
        dsimp only
        cases hef : api.envFind env mid with
        | none => rfl
        | some m =>
          dsimp only
          cases hfd : m.fields.find? (fun sf => sf.name == "value") with
          | none => rfl
          | some subF =>
            dsimp only
            obtain ⟨p, hp⟩ := Option.isSome_iff_exists.mp (hbft st subF hfc)
            obtain ⟨st2, vs⟩ := p
            rw [hp]
            rfl
    · rw [if_neg hmap]
      obtain ⟨p, hp⟩ := Option.isSome_iff_exists.mp (hbft st f hfc)
      obtain ⟨st2, s2⟩ := p
      rw [hp]
      dsimp only
      split <;> rfl
  have hbofs : ∀ fields st props req, freshCount env st ≤ fuel →
      (buildObjectFields env fuel st fields props req).isSome = true := by
    intro fields
    induction fields with
    | nil =>
      intro st props req hfc
      rw [convert.buildObjectFields.eq_def]
      rfl
    | cons f rest ih =>
      intro st props req hfc
      rw [convert.buildObjectFields.eq_def]
      dsimp only
      split
      · exact ih st props req hfc
      · obtain ⟨p, hp⟩ := Option.isSome_iff_exists.mp (hbf st f hfc)
        obtain ⟨st1, schema⟩ := p
        rw [hp]
        dsimp only
        have hfc1 : freshCount env st1 ≤ fuel :=
          le_trans (refAppended_freshCount env (walker_ext_bf env fuel st f st1 schema hp).1) hfc
        exact ih st1 _ _ hfc1
  have hbo : ∀ st m, freshCount env st ≤ fuel → (buildObject env fuel st m).isSome = true := by
    intro st m hfc
    rw [convert.buildObject.eq_def]
    obtain ⟨p, hp⟩ := Option.isSome_iff_exists.mp (hbofs m.fields st [] [] hfc)
    obtain ⟨st1, pr⟩ := p
    obtain ⟨props, req⟩ := pr
    rw [hp]
    rfl
  exact ⟨hbft, hbf, hbofs, hbo⟩

/-- `getRef` never exhausts its fuel while the number of unvisited
environment IDs is at most the fuel: each fresh reference insertion
strictly shrinks that count before the nested object walk. -/
lemma walker_tot_getRef (env : Env) :
    ∀ fuel st mid, freshCount env st ≤ fuel → (getRef env fuel st mid).isSome = true := by
  intro fuel
  induction fuel with
  | zero =>
    intro st mid hfc
    cases mid with
    | none => simp [getRef]
    | some id =>
      simp only [getRef]
      split
      · rfl
      · rename_i msg hfind
        split
        · rfl
        · rename_i hnone
          exfalso
          have hmem : msg.id ∈ envIds env := by
            have h1 := envFind_eq_id env id msg hfind
            rw [h1]
            exact envFind_mem_ids env id msg hfind
          have hpos : 0 < freshCount env st := by
            unfold freshCount
            refine List.length_pos_of_mem (List.mem_filter.mpr ⟨hmem, ?_⟩)
            show (alookup st.refMap msg.id).isNone = true
            rw [hnone]
            rfl
          omega
  | succ n ihtot =>
    intro st mid hfc
    cases mid with
    | none => simp [getRef]
    | some id =>
      simp only [getRef]
      split
      · rfl
      · rename_i msg hfind
        split
        · rfl
        · rename_i hnone
          have hmem : msg.id ∈ envIds env := by
            have h1 := envFind_eq_id env id msg hfind
            rw [h1]
            exact envFind_mem_ids env id msg hfind
          have hlt := freshCount_insert_lt env st msg.id ("#/definitions/" ++ msg.id) st.defs
            hmem hnone
          have hfc1 : freshCount env
              (⟨st.defs, st.refMap ++ [(msg.id, "#/definitions/" ++ msg.id)]⟩ : WalkerState) ≤ n := by
            omega
          have hbo := (walker_tot_inner env n ihtot).2.2.2
            (⟨st.defs, st.refMap ++ [(msg.id, "#/definitions/" ++ msg.id)]⟩ : WalkerState) msg hfc1
          obtain ⟨p, hp⟩ := Option.isSome_iff_exists.mp hbo
          obtain ⟨st2, s2⟩ := p
          rw [hp]
          rfl

lemma walker_tot_bo (env : Env) (fuel : Nat) :
    ∀ st m, freshCount env st ≤ fuel → (buildObject env fuel st m).isSome = true :=
  (walker_tot_inner env fuel (walker_tot_getRef env fuel)).2.2.2

/-- The field loop never changes a properties entry whose key no remaining
field carries. -/
lemma bofs_preserve (env : Env) (fuel : Nat) :
    ∀ fields st props req st' props' req' k,
      buildObjectFields env fuel st fields props req = some (st', props', req') →
      (∀ g ∈ fields, g.jsonName ≠ k) → alookup props' k = alookup props k := by
  intro fields
  induction fields with
  | nil =>
    intro st props req st' props' req' k h hne
    rw [convert.buildObjectFields.eq_def] at h
    cases h
    rfl
  | cons f rest ih =>
    intro st props req st' props' req' k h hne
    rw [convert.buildObjectFields.eq_def] at h
    dsimp only at h
    split at h
    · exact ih _ _ _ _ _ _ k h (fun g hg => hne g (List.mem_cons_of_mem f hg))
    · cases hbf1 : buildField env fuel st f with
      | none =>
        rw [hbf1] at h
        cases h
      | some p =>
        obtain ⟨st1, schema⟩ := p
        rw [hbf1] at h
        dsimp only at h
        have h1 := ih _ _ _ _ _ _ k h (fun g hg => hne g (List.mem_cons_of_mem f hg))
        rw [h1]
        exact alookup_aupsert_ne _ _ _ _
          (fun he => hne f (List.mem_cons_self f rest) he.symm)

/-- A non-output-only field of the walked message contributes, under its
JSON name, exactly the schema `buildField` produced for it at some visited
state extending the starting state. -/
lemma bofs_lookup (env : Env) (fuel : Nat) :
    ∀ fields st props req st' props' req' f,
      buildObjectFields env fuel st fields props req = some (st', props', req') →
      f ∈ fields → f.isOutputOnly = false → (fields.map api.Field.jsonName).Nodup →
      ∃ stf stf2 sf, RefAppended st stf ∧ buildField env fuel stf f = some (stf2, sf) ∧
        alookup props' f.jsonName = some sf := by
  intro fields
  induction fields with
  | nil =>
    intro st props req st' props' req' f h hmem hout hnd
    exact absurd hmem (List.not_mem_nil f)
  | cons g rest ih =>
    intro st props req st' props' req' f h hmem hout hnd
    rw [convert.buildObjectFields.eq_def] at h
    dsimp only at h
    have hnd1 : (rest.map api.Field.jsonName).Nodup := by
      simp only [List.map_cons, List.nodup_cons] at hnd
      exact hnd.2
    have hgnotin : g.jsonName ∉ rest.map api.Field.jsonName := by
      simp only [List.map_cons, List.nodup_cons] at hnd
      exact hnd.1
    split at h
    · rename_i hg
      rcases List.mem_cons.mp hmem with rfl | hf
      · rw [hg] at hout
        exact Bool.noConfusion hout
      · exact ih _ _ _ _ _ _ f h hf hout hnd1
    · cases hbf1 : buildField env fuel st g with
      | none =>
        rw [hbf1] at h
        cases h
      | some p =>
        obtain ⟨st1, schema⟩ := p
        rw [hbf1] at h
        dsimp only at h
        rcases List.mem_cons.mp hmem with rfl | hf
        · refine ⟨st, st1, schema, ⟨[], by simp⟩, hbf1, ?_⟩
          have hne : ∀ g' ∈ rest, g'.jsonName ≠ f.jsonName := by
            intro g' hg' he
            exact hgnotin (he ▸ List.mem_map_of_mem api.Field.jsonName hg')
          have hpre := bofs_preserve env fuel rest _ _ _ _ _ _ f.jsonName h hne
          rw [hpre]
          exact alookup_aupsert_self _ _ _
        · obtain ⟨stf, stf2, sf, hra, hbff, hal⟩ := ih _ _ _ _ _ _ f h hf hout hnd1
          have hra0 : RefAppended st st1 := (walker_ext_bf env fuel st g st1 schema hbf1).1
          refine ⟨stf, stf2, sf, ?_, hbff, hal⟩
          obtain ⟨t1, ht1⟩ := hra0
          obtain ⟨t2, ht2⟩ := hra
          exact ⟨t1 ++ t2, by rw [ht2, ht1, List.append_assoc]⟩

end C1Walker

/-- C1: the exporter terminates on every message over every (possibly
cyclic) message graph: `ToJSONSchema` always succeeds within `env.length`
fuel.  A non-repeated, non-map message field of the root message whose
message type resolves to the root itself appears in the root's properties
under its JSON name as a schema whose `$ref` is `#` (given distinct JSON
names among the root's fields).  The emitted definitions table has
pairwise-distinct keys and carries no entry for the root's ID, which stays
referenced as `#`.  Finally, a message already in the visited map is
referenced by its stored reference string with the walker state unchanged:
nothing is emitted twice, because reference insertion precedes the
referenced message's field walk. -/
theorem c1_cycle_safe_self_ref_and_unique_definitions
    (env : api.Env) (msg : api.Message) (f : api.Field) :
    (convert.ToJSONSchema env (some msg)).isSome = true
    ∧ ((api.envFind env msg.id).isSome = true → f ∈ msg.fields →
        f.typez = api.Typez.MESSAGE_TYPE → f.messageType = some msg.id →
        f.isMap = false → f.repeated = false → f.isOutputOnly = false →
        (msg.fields.map api.Field.jsonName).Nodup →
        ∃ root, convert.ToJSONSchema env (some msg) = some root
          ∧ (∃ s, alookup root.properties f.jsonName = some s ∧ s.ref = "#")
          ∧ (root.definitions.map Prod.fst).Nodup
          ∧ alookup root.definitions msg.id = none)
    ∧ (∀ (fuel : Nat) (st : convert.WalkerState) (r id : String) (m : api.Message),
        api.envFind env id = some m → alookup st.refMap m.id = some r →
        convert.getRef env fuel st (some id) = some (st, convert.refSchema r)) := by
  have hst0 : convert.freshCount env (⟨[], [(msg.id, "#")]⟩ : convert.WalkerState)
      ≤ env.length := by
    have h1 : convert.freshCount env (⟨[], [(msg.id, "#")]⟩ : convert.WalkerState)
        ≤ (convert.envIds env).length := by
      unfold convert.freshCount
      exact List.length_filter_le _ _
    have h2 : (convert.envIds env).length ≤ env.length := by
      unfold convert.envIds
      calc ((env.map api.Message.id).dedup).length
          ≤ (env.map api.Message.id).length := (List.dedup_sublist _).length_le
        _ = env.length := List.length_map _ _
    omega
  obtain ⟨pw, hbo⟩ := Option.isSome_iff_exists.mp
    (walker_tot_bo env env.length (⟨[], [(msg.id, "#")]⟩ : convert.WalkerState) msg hst0)
  refine ⟨?_, ?_, ?_⟩
  · simp only [convert.ToJSONSchema]
    rw [hbo]
    rfl
  · intro hfindsome hmem hty hmt hmap hrep hout hnd
    obtain ⟨m', hfind⟩ := Option.isSome_iff_exists.mp hfindsome
    have hmid : m'.id = msg.id := envFind_eq_id env msg.id m' hfind
    have hbo2 := hbo
    rw [convert.buildObject.eq_def] at hbo2
    cases hbofs1 : convert.buildObjectFields env env.length
        (⟨[], [(msg.id, "#")]⟩ : convert.WalkerState) msg.fields [] [] with
    | none =>
      rw [hbofs1] at hbo2
      cases hbo2
    | some p =>
      obtain ⟨st1, pr⟩ := p
      obtain ⟨props, req⟩ := pr
      rw [hbofs1] at hbo2
      dsimp only at hbo2
      cases hbo2
      have hwok : convert.WOK (⟨[], [(msg.id, "#")]⟩ : convert.WalkerState) st1 :=
        walker_ext_bofs env env.length msg.fields _ [] [] st1 props req hbofs1
      have hinv : (convert.defKeys st1).Nodup ∧ convert.DefsRefd st1 := by
        refine hwok.2 ⟨?_, ?_⟩
        · show (List.map Prod.fst ([] : List (String × convert.JSchema))).Nodup
          simp
        · intro k hk
          simp [convert.defKeys] at hk
      obtain ⟨stf, stf2, sf, hra, hbff, hal⟩ :=
        bofs_lookup env env.length msg.fields _ [] [] st1 props req f hbofs1 hmem hout hnd
      have hash : alookup stf.refMap msg.id = some "#" := by
        refine refAppended_alookup hra msg.id "#" ?_
        show alookup [(msg.id, "#")] msg.id = some "#"
        simp [alookup]
      have hbt : convert.buildFieldType env env.length stf f
          = some (stf, convert.refSchema "#") := by
        rw [convert.buildFieldType.eq_def, hty]
        dsimp only
        rw [hmt]
        rw [convert.getRef.eq_def]
        dsimp only
        rw [hfind]
        dsimp only
        rw [hmid, hash]
      rw [convert.buildField.eq_def] at hbff
      rw [if_neg (show ¬(f.isMap = true) by simp [hmap])] at hbff
      rw [hbt] at hbff
      dsimp only at hbff
      rw [if_neg (show ¬(f.repeated = true) by simp [hrep])] at hbff
      cases hbff
      refine ⟨(convert.JSchema.mk "object" "" msg.documentation "" [] req props []
          none none).withDefinitions st1.defs, ?_, ?_, ?_, ?_⟩
      · simp only [convert.ToJSONSchema]
        rw [hbo]
      · refine ⟨_, hal, ?_⟩
        split <;> rfl
      · exact hinv.1
      · cases hlook : alookup st1.defs msg.id with
        | none => exact hlook
        | some v =>
          exfalso
          have hkmem : msg.id ∈ convert.defKeys st1 := alookup_mem_keys _ _ _ hlook
          have hdr := hinv.2 msg.id hkmem
          have hhash1 : alookup st1.refMap msg.id = some "#" := by
            refine refAppended_alookup hwok.1 msg.id "#" ?_
            show alookup [(msg.id, "#")] msg.id = some "#"
            simp [alookup]
          rw [hdr] at hhash1
          injection hhash1 with hstr
          have hlen := congrArg String.length hstr
          rw [String.length_append] at hlen
          rw [show ("#/definitions/" : String).length = 14 from rfl] at hlen
          rw [show ("#" : String).length = 1 from rfl] at hlen
          omega
  · intro fuel st r id m hfind hvis
    cases fuel with
    | zero =>
      simp only [convert.getRef]
      rw [hfind]
      dsimp only
      rw [hvis]
    | succ n =>
      simp only [convert.getRef]
      rw [hfind]
      dsimp only
      rw [hvis]

/-- Witness for C1: the self-referential message `RecMsg` in a singleton
environment terminates, its `self` property carries a `$ref` of `#`, its
definitions table is duplicate-free and omits the root, and the visited
root is answered from the reference map. -/
theorem c1_witness :
    (convert.ToJSONSchema [convert.recMsg] (some convert.recMsg)).isSome = true
    ∧ (∃ root, convert.ToJSONSchema [convert.recMsg] (some convert.recMsg) = some root
        ∧ (∃ s, alookup root.properties "self" = some s ∧ s.ref = "#")
        ∧ (root.definitions.map Prod.fst).Nodup
        ∧ alookup root.definitions "RecMsg" = none)
    ∧ convert.getRef [convert.recMsg] 1 (⟨[], [("RecMsg", "#")]⟩ : convert.WalkerState)
        (some "RecMsg")
      = some ((⟨[], [("RecMsg", "#")]⟩ : convert.WalkerState), convert.refSchema "#") :=
  ⟨(c1_cycle_safe_self_ref_and_unique_definitions [convert.recMsg] convert.recMsg
      { name := "self", jsonName := "self", typez := api.Typez.MESSAGE_TYPE,
        messageType := some "RecMsg" }).1,
   (c1_cycle_safe_self_ref_and_unique_definitions [convert.recMsg] convert.recMsg
      { name := "self", jsonName := "self", typez := api.Typez.MESSAGE_TYPE,
        messageType := some "RecMsg" }).2.1
      rfl (by simp [convert.recMsg]) rfl rfl rfl rfl rfl (by simp [convert.recMsg]),
   (c1_cycle_safe_self_ref_and_unique_definitions [convert.recMsg] convert.recMsg
      { name := "self", jsonName := "self", typez := api.Typez.MESSAGE_TYPE,
        messageType := some "RecMsg" }).2.2
      1 (⟨[], [("RecMsg", "#")]⟩ : convert.WalkerState) "#" "RecMsg" convert.recMsg
      rfl (by simp [alookup, convert.recMsg])⟩
